import Mathlib

/-!
Verification of the checkpoint-report core (`core.py` of Eskimo00/tochki_otchet).

The embedding models Python strings as `List Char` (wrapped in `String`),
`timedelta` as an exact count of seconds (`Int`), Python `float` values as
correctly rounded IEEE-754 binary64 numbers (exact dyadic rationals,
extended with infinities and NaN), Python dicts with fixed
key sets as ordered association lists, and Python exceptions as `Except`.
The fixed regular expressions of the module are embedded as dedicated
matching functions implementing the exact semantics of each pattern
(leftmost search, lazy/greedy captures, `$` anchoring).
-/

namespace Tochki

/-! ### Python string primitives -/

/-- Python whitespace characters relevant to `str.strip` / `\s`. -/
def isPyWs (c : Char) : Bool :=
  c = ' ' || c = '\t' || c = '\n' || c = '\r' || c = '\x0b' || c = '\x0c'

/-- Python `str.lower` on one character, for the alphabets the program uses
(ASCII and Cyrillic, including Ё). Other characters are unchanged. -/
def pyLowerChar (c : Char) : Char :=
  if 'A' ≤ c ∧ c ≤ 'Z' then Char.ofNat (c.toNat + 32)
  else if 'А' ≤ c ∧ c ≤ 'Я' then Char.ofNat (c.toNat + 32)
  else if c = 'Ё' then 'ё'
  else c

/-- Python `str.upper` on one character (same alphabets as `pyLowerChar`). -/
def pyUpperChar (c : Char) : Char :=
  if 'a' ≤ c ∧ c ≤ 'z' then Char.ofNat (c.toNat - 32)
  else if 'а' ≤ c ∧ c ≤ 'я' then Char.ofNat (c.toNat - 32)
  else if c = 'ё' then 'Ё'
  else c

def lowerStr (s : List Char) : List Char := s.map pyLowerChar

def upperStr (s : List Char) : List Char := s.map pyUpperChar

/-- Python `str.strip()`. -/
def stripChars (s : List Char) : List Char :=
  ((s.dropWhile isPyWs).reverse.dropWhile isPyWs).reverse

def pyStrip (s : String) : String := ⟨stripChars s.data⟩

/-- Python `str.rstrip()`. -/
def rstripChars (s : List Char) : List Char :=
  (s.reverse.dropWhile isPyWs).reverse

/-- Python `str.split(sep)` for a one-character separator:
`"".split(":") == [""]`, empty parts are kept. -/
def splitCh (sep : Char) : List Char → List (List Char)
  | [] => [[]]
  | c :: rest =>
    if c = sep then [] :: splitCh sep rest
    else
      match splitCh sep rest with
      | [] => [[c]]
      | p :: ps => (c :: p) :: ps

/-- Case-insensitive prefix test (models `re.IGNORECASE` literal matching). -/
def ciIsPrefixOf : List Char → List Char → Bool
  | [], _ => true
  | _ :: _, [] => false
  | p :: ps, s :: ss => (pyLowerChar p == pyLowerChar s) && ciIsPrefixOf ps ss

/-- Case-sensitive prefix test. -/
def isPrefixOfB : List Char → List Char → Bool
  | [], _ => true
  | _ :: _, [] => false
  | p :: ps, s :: ss => (p == s) && isPrefixOfB ps ss

/-- Python `pat in s` (case-sensitive substring containment). -/
def containsSub (pat : List Char) : List Char → Bool
  | [] => isPrefixOfB pat []
  | c :: rest => isPrefixOfB pat (c :: rest) || containsSub pat rest

/-- Accumulating scan of a leading run of ASCII digits:
returns (value, number of digits consumed, rest). -/
def takeDigitsAux (acc n : Nat) : List Char → Nat × Nat × List Char
  | [] => (acc, n, [])
  | c :: rest =>
    if c.isDigit then takeDigitsAux (acc * 10 + (c.toNat - 48)) (n + 1) rest
    else (acc, n, c :: rest)

/-- Digit run of a Python `float` literal, with PEP 515 underscores: an
underscore is accepted only directly between two digits (`float("1_0")`
is `10.0`, while `"_1"`, `"1_"` and `"1__0"` raise `ValueError`, modeled
as `none`).  Returns (value, number of digits consumed, rest). -/
def takeDigitsU (acc n : Nat) : List Char → Option (Nat × Nat × List Char)
  | [] => some (acc, n, [])
  | c :: rest =>
    if c.isDigit then takeDigitsU (acc * 10 + (c.toNat - 48)) (n + 1) rest
    else if c = '_' then
      match rest with
      | d :: _ => if 1 ≤ n ∧ d.isDigit then takeDigitsU acc n rest else none
      | [] => none
    else some (acc, n, c :: rest)

/-- Decimal digits of `n`, least significant digit pushed onto `acc` first;
`fuel` bounds the recursion depth (any `fuel > n` is adequate). -/
def natReprAux : Nat → Nat → List Char → List Char
  | 0, _, acc => acc
  | fuel + 1, n, acc =>
    let d := Char.ofNat (48 + n % 10)
    if n < 10 then d :: acc else natReprAux fuel (n / 10) (d :: acc)

/-- Decimal digits of a natural number, most significant first. -/
def natReprChars (n : Nat) : List Char := natReprAux (n + 1) n []

/-- Decimal rendering of an integer (Python `repr` of an `int`). -/
def intReprChars (i : Int) : List Char :=
  if i < 0 then '-' :: natReprChars i.natAbs else natReprChars i.toNat

/-- Python `f"{i:02d}"`: pad with one leading zero when the rendering is a
single character. -/
def pad2 (i : Int) : List Char :=
  let s := intReprChars i
  if s.length < 2 then '0' :: s else s

/-! ### Python float parsing and `int(float(p))` (Duration Codec support) -/

/-- The values `float(p)` can produce.  A finite value is the exact
rational value of the IEEE-754 binary64 number the literal rounds to,
as the fraction `num / den` with `den` a positive power of two. -/
inductive PyFloat where
  | finite (num : Int) (den : Nat)
  | infinite
  | nan
deriving DecidableEq

/-- Python exceptions distinguished by `parse_duration`:
`ValueError` is caught by its `except` clause, `OverflowError` is not. -/
inductive PyExc where
  | valueError
  | overflowError
deriving DecidableEq

instance {ε α : Type} [DecidableEq ε] [DecidableEq α] : DecidableEq (Except ε α) := fun a b =>
  match a, b with
  | .ok x, .ok y => decidable_of_iff (x = y) (by simp)
  | .error x, .error y => decidable_of_iff (x = y) (by simp)
  | .ok _, .error _ => isFalse (fun h => by cases h)
  | .error _, .ok _ => isFalse (fun h => by cases h)

/-- Finite decimal literal: `digits [. digits] [ (e|E) [sign] digits ]`,
at least one mantissa digit, underscores between digits allowed,
evaluated exactly as a fraction numerator / power-of-ten denominator. -/
def parseDecimal (s : List Char) : Option (Nat × Nat) :=
  match takeDigitsU 0 0 s with
  | none => none
  | some (ip, ipn, r1) =>
    match (match r1 with
           | '.' :: rest => takeDigitsU 0 0 rest
           | _ => some (0, 0, r1)) with
    | none => none
    | some (fp, fpn, r2) =>
      if ipn + fpn = 0 then none
      else
        let m := ip * 10 ^ fpn + fp
        match r2 with
        | [] => some (m, 10 ^ fpn)
        | e :: rest =>
          if e == 'e' || e == 'E' then
            let (eneg, rest2) : Bool × List Char :=
              match rest with
              | '+' :: t => (false, t)
              | '-' :: t => (true, t)
              | t => (false, t)
            match takeDigitsU 0 0 rest2 with
            | none => none
            | some (ev, en, r3) =>
              if en = 0 ∨ r3 ≠ [] then none
              else if eneg then some (m, 10 ^ fpn * 10 ^ ev)
              else some (m * 10 ^ ev, 10 ^ fpn)
          else none

/-- Floor of the base-2 logarithm by fuel-bounded halving (any
`fuel ≥ n` is adequate; the fuel-based recursion reduces inside the
kernel, unlike `Nat.log2`). -/
def log2Aux : Nat → Nat → Nat
  | 0, _ => 0
  | fuel + 1, n => if 2 ≤ n then log2Aux fuel (n / 2) + 1 else 0

/-- Floor of the base-2 logarithm (0 at 0). -/
def natLog2 (n : Nat) : Nat := log2Aux n n

/-- Floor of the base-2 logarithm of the positive rational `a / b`,
as an integer. -/
def ratLog2 (a b : Nat) : Int :=
  if b ≤ a then (natLog2 (a / b) : Int)
  else
    let k := natLog2 (b / a)
    if b ≤ a * 2 ^ k then -(k : Int) else -((k : Int) + 1)

/-- Round the non-negative rational `p / q` to the nearest integer,
ties to even. -/
def roundHalfEven (p q : Nat) : Nat :=
  let d := p / q
  let r := p % q
  if 2 * r < q then d
  else if q < 2 * r then d + 1
  else if d % 2 = 0 then d else d + 1

/-- IEEE-754 binary64 round-to-nearest-even of the positive rational
`a / b`: the rounding quantum is `2 ^ (e - 52)` for a value in the
binade `[2 ^ e, 2 ^ (e + 1))`, floored at `2 ^ (-1074)` in the
subnormal range; a rounded value of `2 ^ 1024` or more overflows to
infinity (`none`).  The result is the exact value of the double as a
fraction numerator / power-of-two denominator. -/
def roundPos (a b : Nat) : Option (Nat × Nat) :=
  if ratLog2 a b - 52 < -1074 then
    some (roundHalfEven (a * 2 ^ 1074) b, 2 ^ 1074)
  else if ratLog2 a b - 52 < 0 then
    some (roundHalfEven (a * 2 ^ (52 - ratLog2 a b).toNat) b,
      2 ^ (52 - ratLog2 a b).toNat)
  else if 2 ^ 1024 ≤
      roundHalfEven a (b * 2 ^ (ratLog2 a b - 52).toNat) * 2 ^ (ratLog2 a b - 52).toNat then
    none
  else
    some (roundHalfEven a (b * 2 ^ (ratLog2 a b - 52).toNat) * 2 ^ (ratLog2 a b - 52).toNat,
      1)

/-- An optional leading sign: returns the sign and the remaining text. -/
def splitSign (t : List Char) : Int × List Char :=
  match t with
  | [] => (1, [])
  | c :: r => if c = '+' then (1, r) else if c = '-' then (-1, r) else (1, c :: r)

/-- Python `float(p)` on a string: strip, optional sign, then either an
infinity / NaN keyword or a finite decimal literal, rounded to the
nearest binary64 value (overflowing to an infinity). -/
def pyFloatParse (s : String) : Option PyFloat :=
  let t := stripChars s.data
  let (sgn, body) := splitSign t
  let low := lowerStr body
  if low = "inf".data ∨ low = "infinity".data then some .infinite
  else if low = "nan".data then some .nan
  else
    match parseDecimal body with
    | some (m, d) =>
      if m = 0 then some (.finite 0 1)
      else
        match roundPos m d with
        | none => some .infinite
        | some (num, den) => some (.finite (sgn * (num : Int)) den)
    | none => none

/-- Python `int(float(p))`: `float` of a malformed string raises
`ValueError`; `int` of NaN raises `ValueError`; `int` of an infinity raises
`OverflowError`.  `Int.tdiv` truncates toward zero like Python `int()`. -/
def intFloat (p : String) : Except PyExc Int :=
  match pyFloatParse p with
  | none => .error .valueError
  | some .nan => .error .valueError
  | some .infinite => .error .overflowError
  | some (.finite num den) => .ok (Int.tdiv num (den : Int))

/-! ### Duration Codec (`parse_duration`, `format_duration`) -/

/-- `parse_duration` from `core.py`.  A `timedelta` is represented by its
exact number of seconds (`timedelta(hours=h, minutes=m, seconds=s)` is
`3600*h + 60*m + s`).  The `except ValueError` clause of the source
catches only `ValueError`, so an `OverflowError` raised by
`int(float(p))` escapes; so does the `OverflowError` raised by the
`timedelta(hours=h, minutes=m, seconds=sec)` constructor itself (outside
the `try`) when the normalized day count `⌊total / 86400⌋` exceeds
999999999 in magnitude. -/
def parse_duration (value : Option String) : Except PyExc Int :=
  match value with
  | none => .ok 0
  | some v =>
    let s := pyStrip v
    let parts := splitCh ':' s.data
    match parts with
    | [p0, p1, p2] =>
      match (do
        let h ← intFloat ⟨p0⟩
        let m ← intFloat ⟨p1⟩
        let sec ← intFloat ⟨p2⟩
        pure (h, m, sec) : Except PyExc (Int × Int × Int)) with
      | .error .valueError => .ok 0
      | .error .overflowError => .error .overflowError
      | .ok (h, m, sec) =>
        let total := 3600 * h + 60 * m + sec
        if 999999999 < (total / 86400).natAbs then .error .overflowError
        else .ok total
    | _ => .ok 0

/-- `format_duration` from `core.py`.  `/` and `%` on `Int` are Euclidean
division, which coincides with Python `//` and `%` for the positive
divisors used here. -/
def format_duration (td : Int) : String :=
  let total := td
  let h := total / 3600
  let m := total % 3600 / 60
  let s := total % 60
  ⟨pad2 h ++ ':' :: (pad2 m ++ ':' :: pad2 s)⟩

/-! ### Text Pattern Extractors

Each fixed regular expression of `core.py` is embedded as a dedicated
function with the exact matching semantics of the pattern:
`re.search` tries successive start positions left to right, `.` does not
match a newline, and `$` matches at the end of the string or just before a
single final newline. -/

/-- The literal of `MODEL_RE`, lowered: `Модель:`. -/
def modelMarker : List Char := "модель:".data

/-- The literal of the optional tail of `MODEL_RE`, lowered: `Номер ТС:`. -/
def nomerMarker : List Char := "номер тс:".data

/-- `.*$`: the rest of the text must contain no newline, except possibly a
single final one. -/
def dotStarEndOk : List Char → Bool
  | [] => true
  | c :: rest => if c = '\n' then rest.isEmpty else dotStarEndOk rest

/-- `$` right here: at the end, or just before a single final newline. -/
def atLineEnd (t : List Char) : Bool := t.isEmpty || t == ['\n']

/-- Does `t` match `\s+Номер ТС:.*$` (the optional tail of `MODEL_RE`)?  The
literal starts with a non-whitespace character, so the greedy `\s+` must
consume exactly the leading whitespace run. -/
def nomerSuffixOk (t : List Char) : Bool :=
  match t with
  | [] => false
  | c :: rest =>
    isPyWs c &&
      (let rest2 := rest.dropWhile isPyWs
       ciIsPrefixOf nomerMarker rest2 && dotStarEndOk (rest2.drop nomerMarker.length))

/-- The lazy group `(.+?)` of `MODEL_RE`: the shortest non-empty
newline-free prefix whose remainder matches `(?:\s+Номер ТС:.*)?$`
(tail present, or end of line). -/
def lazyCapture (acc : List Char) : List Char → Option (List Char)
  | [] => none
  | c :: rest =>
    if c = '\n' then none
    else
      let g := acc ++ [c]
      if nomerSuffixOk rest || atLineEnd rest then some g
      else lazyCapture g rest

/-- `\s*(.+?)...` after the marker: the greedy `\s*` first consumes the
whole leading whitespace run (`k` characters), then backtracks one
character at a time until the rest of the pattern matches. -/
def modelAfterAux : Nat → List Char → Option (List Char)
  | 0, rest => lazyCapture [] rest
  | k + 1, rest =>
    match lazyCapture [] (rest.drop (k + 1)) with
    | some g => some g
    | none => modelAfterAux k rest

def modelAfter (rest : List Char) : Option (List Char) :=
  modelAfterAux (rest.takeWhile isPyWs).length rest

/-- `MODEL_RE.search`: leftmost occurrence of the (case-insensitive)
marker `Модель:` at which the whole pattern matches; returns group 1. -/
def modelScan : List Char → Option (List Char)
  | [] => none
  | c :: rest =>
    if ciIsPrefixOf modelMarker (c :: rest) then
      match modelAfter ((c :: rest).drop modelMarker.length) with
      | some g => some g
      | none => modelScan rest
    else modelScan rest

/-- `_extract_model_name` from `core.py`: first cell text with a
`MODEL_RE` match; the captured group is stripped. -/
def _extract_model_name (texts : List String) : Option String :=
  match texts with
  | [] => none
  | t :: rest =>
    match modelScan t.data with
    | some g => some (pyStrip ⟨g⟩)
    | none => _extract_model_name rest

/-- The literal of `PERIOD_RE`, lowered: `Период:`. -/
def periodMarker : List Char := "период:".data

/-- Exactly `n` decimal digits; returns them and the rest. -/
def digitsExact : Nat → List Char → Option (List Char × List Char)
  | 0, rest => some ([], rest)
  | _ + 1, [] => none
  | n + 1, c :: rest =>
    if c.isDigit then
      match digitsExact n rest with
      | some (ds, r) => some (c :: ds, r)
      | none => none
    else none

/-- The date group `(\d{2}\.\d{2}\.\d{4})` of `PERIOD_RE`. -/
def dateCapture (t : List Char) : Option (List Char) :=
  match digitsExact 2 t with
  | none => none
  | some (d1, r1) =>
    match r1 with
    | '.' :: r2 =>
      match digitsExact 2 r2 with
      | none => none
      | some (d2, r3) =>
        match r3 with
        | '.' :: r4 =>
          match digitsExact 4 r4 with
          | none => none
          | some (d3, _) => some (d1 ++ '.' :: d2 ++ '.' :: d3)
        | _ => none
    | _ => none

/-- `\s*с\s*(\d{2}\.\d{2}\.\d{4})` after the `Период:` marker (`с` is the
Cyrillic letter, matched case-insensitively). -/
def periodAfter (rest : List Char) : Option (List Char) :=
  match rest.dropWhile isPyWs with
  | c :: r2 =>
    if pyLowerChar c = 'с' then dateCapture (r2.dropWhile isPyWs)
    else none
  | [] => none

/-- `PERIOD_RE.search`: returns the captured date. -/
def periodScan : List Char → Option (List Char)
  | [] => none
  | c :: rest =>
    if ciIsPrefixOf periodMarker (c :: rest) then
      match periodAfter ((c :: rest).drop periodMarker.length) with
      | some d => some d
      | none => periodScan rest
    else periodScan rest

/-- `_extract_period` from `core.py`. -/
def _extract_period (texts : List String) : Option String :=
  match texts with
  | [] => none
  | t :: rest =>
    match periodScan t.data with
    | some d => some ⟨d⟩
    | none => _extract_period rest

/-- The literal of `POINT_RE`, lowered: `Точка`. -/
def pointMarker : List Char := "точка".data

/-- `\s*(\d+)` after the `Точка` marker. -/
def pointAfter (rest : List Char) : Option Nat :=
  let r1 := rest.dropWhile isPyWs
  let (v, n, _) := takeDigitsAux 0 0 r1
  if n = 0 then none else some v

/-- `POINT_RE.search`: returns the captured integer. -/
def pointScan : List Char → Option Nat
  | [] => none
  | c :: rest =>
    if ciIsPrefixOf pointMarker (c :: rest) then
      match pointAfter ((c :: rest).drop pointMarker.length) with
      | some v => some v
      | none => pointScan rest
    else pointScan rest

/-- `_extract_point_index` from `core.py`: the captured integer only when
it lies in `[1, 8]`. -/
def _extract_point_index (text : String) : Option Nat :=
  match pointScan text.data with
  | none => none
  | some idx => if 1 ≤ idx ∧ idx ≤ 8 then some idx else none

/-- The end-of-section literal (matched case-sensitively by `in`). -/
def endMarker : List Char := "ИТОГО по ТС".data

/-- `_is_section_end` from `core.py`. -/
def _is_section_end (texts : List String) : Bool :=
  texts.any (fun t => containsSub endMarker t.data)

/-! ### Header post-processing (`_parse_model_info`) -/

/-- Does `t` start with `\((\d+)\)\s*$`?  Returns the captured integer.
`\s*$` holds exactly when the remainder is whitespace only. -/
def parenAt (t : List Char) : Option Nat :=
  match t with
  | '(' :: r =>
    let (v, n, r2) := takeDigitsAux 0 0 r
    if n = 0 then none
    else
      match r2 with
      | ')' :: r3 => if r3.dropWhile isPyWs = [] then some v else none
      | _ => none
  | _ => none

/-- `re.search(r"\((\d+)\)\s*$", name)`: leftmost matching position;
returns the captured integer and the text before the match. -/
def parenSearch (acc : List Char) : List Char → Option (Nat × List Char)
  | [] => none
  | c :: rest =>
    match parenAt (c :: rest) with
    | some v => some (v, acc.reverse)
    | none => parenSearch (c :: acc) rest

/-- `re.match(r"(ТЭ|ТАН-\d+)", name, re.IGNORECASE)`: the alternation tries
`ТЭ` first, then `ТАН-` followed by a greedy run of digits; returns the
matched text in its original case. -/
def groupMatch (t : List Char) : Option (List Char) :=
  if ciIsPrefixOf "тэ".data t then some (t.take 2)
  else if ciIsPrefixOf "тан-".data t then
    let ds := (t.drop 4).takeWhile Char.isDigit
    if ds = [] then none else some (t.take 4 ++ ds)
  else none

/-- Python `name.split()[0]`: first whitespace-delimited token. -/
def firstToken (t : List Char) : List Char :=
  (t.dropWhile isPyWs).takeWhile (fun c => ¬ isPyWs c)

/-- `re.sub(rf"^\s*{re.escape(group)}\s*[-:]?\s*", "", name, re.IGNORECASE)`:
the group literal starts with a non-whitespace character, so the leading
greedy `\s*` must consume exactly the whitespace run; if the literal does
not match there, the text is returned unchanged. -/
def stripGroupPfx (g : List Char) (t : List Char) : List Char :=
  let t1 := t.dropWhile isPyWs
  if ciIsPrefixOf g t1 then
    let t2 := (t1.drop g.length).dropWhile isPyWs
    match t2 with
    | '-' :: r => r.dropWhile isPyWs
    | ':' :: r => r.dropWhile isPyWs
    | _ => t2
  else t

/-- `_parse_model_info` from `core.py`: returns (group, cleaned name,
declared total checkpoint count). -/
def _parse_model_info (model_name : String) : String × String × Option Int :=
  let name0 := stripChars model_name.data
  let (total_points, name1) : Option Int × List Char :=
    match parenSearch [] name0 with
    | some (v, pre) => (some (v : Int), rstripChars pre)
    | none => (none, name0)
  let g : List Char :=
    match groupMatch name1 with
    | some m => upperStr m
    | none => if name1 = [] then [] else firstToken name1
  let name2 := if g = [] then name1 else stripGroupPfx g name1
  (⟨g⟩, ⟨name2⟩, total_points)

/-! ### Data model and Section Aggregator -/

/-- `ModelResult` from `core.py`.  The two dicts `{i: 0 for i in
range(1, 9)}` are ordered association lists; a `timedelta` sum is its
exact number of seconds. -/
structure ModelResult where
  name : String
  group : String
  total_points : Option Int
  counts : List (Nat × Nat)
  sums : List (Nat × Int)
deriving DecidableEq

/-- `{i: 0 for i in range(1, 9)}` for the pass counters. -/
def initCounts : List (Nat × Nat) :=
  [(1, 0), (2, 0), (3, 0), (4, 0), (5, 0), (6, 0), (7, 0), (8, 0)]

/-- `{i: timedelta(0) for i in range(1, 9)}` for the duration sums. -/
def initSums : List (Nat × Int) :=
  [(1, 0), (2, 0), (3, 0), (4, 0), (5, 0), (6, 0), (7, 0), (8, 0)]

/-- `_create_empty_result` from `core.py`. -/
def _create_empty_result (model_name : String) : ModelResult :=
  let info := _parse_model_info model_name
  { name := info.2.1, group := info.1, total_points := info.2.2,
    counts := initCounts, sums := initSums }

/-- `counts[k] += 1` on the association list (the key is always present:
the point extractor only yields indices 1..8, which `initCounts` holds). -/
def bumpKey (d : List (Nat × Nat)) (k : Nat) : List (Nat × Nat) :=
  d.map (fun p => if p.1 = k then (p.1, p.2 + 1) else p)

/-- `sums[k] += v` on the association list. -/
def addKey (d : List (Nat × Int)) (k : Nat) (v : Int) : List (Nat × Int) :=
  d.map (fun p => if p.1 = k then (p.1, p.2 + v) else p)

/-- `_update_point_data` from `core.py`: a valid checkpoint index in the
name-column text increments its counter and adds the parsed duration of
the duration-column text (whose `parse_duration` exception, if any,
propagates). -/
def _update_point_data (result : ModelResult) (point_text duration_text : String) :
    Except PyExc ModelResult :=
  match _extract_point_index point_text with
  | none => .ok result
  | some i => do
    let d ← parse_duration (some duration_text)
    pure { result with counts := bumpKey result.counts i, sums := addKey result.sums i d }

/-- The mutable locals of the row loop in `process_file`. -/
structure ScanState where
  period_date : String
  results : List ModelResult
  current : Option ModelResult
deriving DecidableEq

/-- `flush_model` from `process_file`. -/
def flushModel (st : ScanState) : ScanState :=
  match st.current with
  | none => st
  | some m => { st with results := st.results ++ [m], current := none }

/-- Steps 3-4 of one iteration of the row loop of `process_file` (per-point
update of the open section, then the explicit end-of-section flush). -/
def scanRowUpd (name_col dur_col : Nat) (st2 : ScanState) (texts : List String) :
    Except PyExc ScanState := do
  let st3 ←
    match st2.current with
    | some cur => do
      let name_txt := texts.getD (name_col - 1) ""
      let dur_txt := texts.getD (dur_col - 1) ""
      let cur2 ← _update_point_data cur name_txt dur_txt
      pure { st2 with current := some cur2 }
    | none => pure st2
  pure (if _is_section_end texts then flushModel st3 else st3)

/-- Steps 2-4 of one iteration of the row loop of `process_file` (header
recognition, per-point update, explicit end-of-section flush), after the
period update of step 1 has been applied to the state. -/
def scanRowTail (name_col dur_col : Nat) (st1 : ScanState) (texts : List String) :
    Except PyExc ScanState :=
  scanRowUpd name_col dur_col
    (match _extract_model_name texts with
     | some m =>
       if m ≠ "" then { flushModel st1 with current := some (_create_empty_result m) }
       else st1
     | none => st1) texts

/-- One iteration of the row loop of `process_file`, acting on the list of
stripped cell texts of the row (`texts`).  `name_col`/`dur_col` are the
1-based columns chosen by `detect_columns` (always ≥ 1). -/
def scanRow (name_col dur_col : Nat) (st : ScanState) (texts : List String) :
    Except PyExc ScanState :=
  let st1 :=
    match _extract_period texts with
    | some p => { st with period_date := p }
    | none => st
  scanRowTail name_col dur_col st1 texts

/-- The whole row scan of `process_file`, from the stripped cell texts of
each row to the pre-sort result list (final implicit flush included). -/
def scanRows (name_col dur_col : Nat) (rows : List (List String)) :
    Except PyExc (List ModelResult) := do
  let st ← rows.foldlM (scanRow name_col dur_col) ⟨"", [], none⟩
  pure (flushModel st).results

/-! ### Result Ordering -/

/-- `group_order.get(group.upper(), 100)` from `process_file`. -/
def groupRank (g : String) : Nat :=
  let u := upperStr g.data
  if u = "ТЭ".data then 0
  else if u = "ТАН-1".data then 1
  else if u = "ТАН-2".data then 2
  else if u = "ТАН-3".data then 3
  else 100

/-- The sort key of `process_file`:
`(group_order.get(group.upper(), 100), group.lower(), name.lower())`. -/
def sortKey (r : ModelResult) : Nat × List Char × List Char :=
  (groupRank r.group, lowerStr r.group.data, lowerStr r.name.data)

/-- Python string `<`: lexicographic by code point, a strict prefix is
smaller. -/
def strLtB : List Char → List Char → Bool
  | [], [] => false
  | [], _ :: _ => true
  | _ :: _, [] => false
  | a :: as, b :: bs => decide (a.toNat < b.toNat) || ((a == b) && strLtB as bs)

/-- Python tuple `<` on sort keys. -/
def keyLtB (a b : Nat × List Char × List Char) : Bool :=
  decide (a.1 < b.1) ||
    ((a.1 == b.1) &&
      (strLtB a.2.1 b.2.1 || ((a.2.1 == b.2.1) && strLtB a.2.2 b.2.2)))

/-- The (non-strict) ordering used to sort results, as a relation. -/
def resLe (x y : ModelResult) : Prop := keyLtB (sortKey y) (sortKey x) = false

instance : DecidableRel resLe := fun x y => by
  unfold resLe; infer_instance

/-- `results.sort(key=...)` from `process_file`: a stable sort by
ascending key. -/
def sortResults (l : List ModelResult) : List ModelResult :=
  List.insertionSort resLe l

/-! ### Report Renderer (`_build_workbook`) -/

/-- A spreadsheet cell value as written by `_build_workbook`. -/
inductive CellVal where
  | int (n : Int)
  | str (s : String)
deriving DecidableEq

/-- `result.total_points or ""`: Python `or` falls through to `""` when
`total_points` is `None` or `0`. -/
def totalCellVal (tp : Option Int) : CellVal :=
  match tp with
  | some n => if n = 0 then .str "" else .int n
  | none => .str ""

/-- Association-list lookup with default (the scan invariant keeps keys
1..8 present, mirroring `result.counts[point_index]`). -/
def lookupD {α : Type} (d : List (Nat × α)) (k : Nat) (dflt : α) : α :=
  match d.find? (fun p => p.1 == k) with
  | some p => p.2
  | none => dflt

/-- One checkpoint cell of a data row in `_build_workbook`:
`"---"` on a zero count, `"нет"` on a positive count with zero summed
duration, else `f"({count}) / {format_duration(total)}"`. -/
def point_cell (count : Nat) (total : Int) : String :=
  if count = 0 then "---"
  else if total = 0 then "нет"
  else "(" ++ (⟨natReprChars count⟩ : String) ++ ") / " ++ format_duration total

/-- One data row (`line`) of the report sheet in `_build_workbook`. -/
def build_line (line_no : Nat) (result : ModelResult) (period_date : String) :
    List CellVal :=
  [.int (line_no : Int), .str result.group, .str result.name,
    totalCellVal result.total_points, .str period_date] ++
  (List.range 8).map (fun k =>
    .str (point_cell (lookupD result.counts (k + 1) 0) (lookupD result.sums (k + 1) 0)))

/-- The group-column merge loop of `_build_workbook`, on the list of group
values of the data rows (rows 2..).  Emits merged row ranges
`(start_row, end_row)`.  `cur ≠ ""` is Python's truthiness test
`if current_group`. -/
def mergeGo (cur : String) (start r : Nat) (rest : List String)
    (acc : List (Nat × Nat)) : List (Nat × Nat) :=
  match rest with
  | [] =>
    if cur ≠ "" ∧ (r - 1) - start + 1 > 1 then acc ++ [(start, r - 1)] else acc
  | v :: tl =>
    if v ≠ cur then
      let acc2 := if cur ≠ "" ∧ r - start > 1 then acc ++ [(start, r - 1)] else acc
      mergeGo v r (r + 1) tl acc2
    else mergeGo cur start (r + 1) tl acc

/-- All ranges merged in the group column for the given data-row group
values (no results: the loop body never runs and `current_group` stays
`None`). -/
def merge_runs (groups : List String) : List (Nat × Nat) :=
  match groups with
  | [] => []
  | g0 :: rest => mergeGo g0 2 3 rest []

/-! ### Proof-side helper definitions -/

/-- The value of a digit string under the left fold used by
`takeDigitsAux` (Python `int` of a digit string, with accumulator). -/
def foldlDigits (a : Nat) (ds : List Char) : Nat :=
  ds.foldl (fun x c => x * 10 + (c.toNat - 48)) a

/-- The zero-padded rendering `f"{h:02d}:{m:02d}:{s:02d}"` of a valid
duration, the input shape of the round-trip property. -/
def hhmmss (h m s : Nat) : String :=
  ⟨pad2 (h : Int) ++ ':' :: (pad2 (m : Int) ++ ':' :: pad2 (s : Int))⟩

/-- The ten decimal digit characters. -/
def digitChars : List Char := ['0', '1', '2', '3', '4', '5', '6', '7', '8', '9']

/-- The `(results, current)` projection of a scan state. -/
def projRC (st : ScanState) : List ModelResult × Option ModelResult :=
  (st.results, st.current)

/-- `flush_model` on the projected state. -/
def flushRC (rc : List ModelResult × Option ModelResult) :
    List ModelResult × Option ModelResult :=
  match rc.2 with
  | none => rc
  | some m => (rc.1 ++ [m], none)

/-- Steps 3-4 of the row loop on the projected state. -/
def scanRowUpdRC (name_col dur_col : Nat) (rc1 : List ModelResult × Option ModelResult)
    (texts : List String) : Except PyExc (List ModelResult × Option ModelResult) := do
  let rc2 ←
    match rc1.2 with
    | some cur => do
      let cur2 ← _update_point_data cur
        (texts.getD (name_col - 1) "") (texts.getD (dur_col - 1) "")
      pure (rc1.1, some cur2)
    | none => pure rc1
  pure (if _is_section_end texts then flushRC rc2 else rc2)

/-- `scanRow` restricted to the `(results, current)` components, which do
not depend on the running period (step 1 of the loop only overwrites
`period_date`). -/
def scanRowRC (name_col dur_col : Nat) (rc : List ModelResult × Option ModelResult)
    (texts : List String) : Except PyExc (List ModelResult × Option ModelResult) :=
  scanRowUpdRC name_col dur_col
    (match _extract_model_name texts with
     | some m =>
       if m ≠ "" then ((flushRC rc).1, some (_create_empty_result m))
       else rc
     | none => rc) texts

/-- Both tables of a section hold exactly the keys 1..8, in order. -/
def goodKeys (r : ModelResult) : Prop :=
  r.counts.map Prod.fst = [1, 2, 3, 4, 5, 6, 7, 8] ∧
  r.sums.map Prod.fst = [1, 2, 3, 4, 5, 6, 7, 8]

/-- Every duration sum of a section is non-negative. -/
def sumsNonneg (r : ModelResult) : Prop := ∀ p ∈ r.sums, 0 ≤ p.2

/-- Every duration cell of the input parses to a non-negative duration
(the condition under which duration sums stay non-negative). -/
def durNonneg (dur_col : Nat) (rows : List (List String)) : Prop :=
  ∀ texts ∈ rows, ∀ v : Int,
    parse_duration (some (texts.getD (dur_col - 1) "")) = .ok v → 0 ≤ v

/-- A property holding of every flushed section and of the open one. -/
def scanInv (P : ModelResult → Prop) (st : ScanState) : Prop :=
  (∀ r ∈ st.results, P r) ∧ (∀ c, st.current = some c → P c)

/-! ### Basic claim theorems -/

/-- Claim C2 (status: code bug in `parse_duration`).  The claim says
`parse_duration` never raises on any input, and the spec documents
"Never raises — malformed input degrades silently to zero"; but the
source only catches `ValueError`, while `int(float("inf"))` raises
`OverflowError`, which escapes.  This theorem evaluates the embedded
`parse_duration` at the failing input `"inf:0:0"`. -/
theorem claim_C2_parse_duration_raises_on_infinity :
    parse_duration (some "inf:0:0") = .error .overflowError ∧
    parse_duration none = .ok 0 ∧
    parse_duration (some "") = .ok 0 ∧
    parse_duration (some "1:2") = .ok 0 ∧
    parse_duration (some "a:b:c") = .ok 0 := by
  refine ⟨?_, ?_, ?_, ?_, ?_⟩ <;> decide

/-- Claim C3: a checkpoint cell renders `"---"` on count 0, `"нет"` on a
positive count with zero summed duration, and `"(count) / HH:MM:SS"`
otherwise; in particular `(0, _) ↦ "---"`, `(2, 0) ↦ "нет"` and
`(3, 125 s) ↦ "(3) / 00:02:05"`. -/
theorem claim_C3_point_cell_rendering (c : Nat) (d : Int) :
    (c = 0 → point_cell c d = "---") ∧
    (c ≠ 0 → d = 0 → point_cell c d = "нет") ∧
    (c ≠ 0 → d ≠ 0 →
      point_cell c d = "(" ++ (⟨natReprChars c⟩ : String) ++ ") / " ++ format_duration d) ∧
    point_cell 0 7 = "---" ∧ point_cell 2 0 = "нет" ∧ point_cell 3 125 = "(3) / 00:02:05" := by
  refine ⟨?_, ?_, ?_, by decide, by decide, by decide⟩
  · intro hc; simp [point_cell, hc]
  · intro hc hd; simp [point_cell, hc, hd]
  · intro hc hd; simp [point_cell, hc, hd]

theorem claim_C3_point_cell_rendering_witness :
    point_cell 5 0 = "нет" ∧ point_cell 0 3 = "---" :=
  ⟨(claim_C3_point_cell_rendering 5 0).2.1 (by decide) rfl,
   (claim_C3_point_cell_rendering 0 3).1 rfl⟩

/-- Claim C7: the cell `"Модель: ТАН-1 Экскаватор (6)"` is recognized as a
section header with raw text `"ТАН-1 Экскаватор (6)"`, and header
post-processing yields group `"ТАН-1"`, declared total 6 and name
`"Экскаватор"`. -/
theorem claim_C7_header_example :
    _extract_model_name ["Модель: ТАН-1 Экскаватор (6)"] = some "ТАН-1 Экскаватор (6)" ∧
    _parse_model_info "ТАН-1 Экскаватор (6)" = ("ТАН-1", "Экскаватор", some 6) := by
  refine ⟨?_, ?_⟩ <;> decide

/-- Claim C9 is false as stated: sort keys are built from lowercased
texts, so two sections whose names differ only in case (here `"A"` and
`"a"`) have equal sort keys while their names are not equal. -/
theorem claim_C9_counterexample :
    sortKey { name := "A", group := "ТЭ", total_points := none,
              counts := initCounts, sums := initSums } =
      sortKey { name := "a", group := "ТЭ", total_points := none,
                counts := initCounts, sums := initSums } ∧
    ({ name := "A", group := "ТЭ", total_points := none,
       counts := initCounts, sums := initSums : ModelResult }).name ≠
      ({ name := "a", group := "ТЭ", total_points := none,
         counts := initCounts, sums := initSums : ModelResult }).name := by
  refine ⟨by decide, by decide⟩

/-- Claim C9, amended: sort keys of two sections compare equal only if
the two sections have case-insensitively equal groups and
case-insensitively equal names. -/
theorem claim_C9_amended_key_equality (r s : ModelResult)
    (h : sortKey r = sortKey s) :
    lowerStr r.group.data = lowerStr s.group.data ∧
    lowerStr r.name.data = lowerStr s.name.data := by
  simp only [sortKey, Prod.mk.injEq] at h
  exact ⟨h.2.1, h.2.2⟩

theorem claim_C9_amended_key_equality_witness :
    lowerStr ("ТЭ" : String).data = lowerStr ("тэ" : String).data ∧
    lowerStr ("A" : String).data = lowerStr ("a" : String).data :=
  claim_C9_amended_key_equality
    { name := "A", group := "ТЭ", total_points := none,
      counts := initCounts, sums := initSums }
    { name := "a", group := "тэ", total_points := none,
      counts := initCounts, sums := initSums }
    (by decide)

/-- Claim C10: a declared total of 0 renders the `Всего точек` cell as the
empty string (`total_points or ""` falls through on the falsy `0`),
making a parsed `"(0)"` annotation indistinguishable from an absent
annotation in the rendered row. -/
theorem claim_C10_zero_total_blank (line_no : Nat) (r : ModelResult) (period : String) :
    build_line line_no { r with total_points := some 0 } period =
      build_line line_no { r with total_points := none } period ∧
    totalCellVal (some 0) = .str "" ∧ totalCellVal none = .str "" := by
  refine ⟨?_, rfl, rfl⟩
  simp [build_line, totalCellVal]

/-! ### Digit-string lemmas (towards the round-trip property C5) -/

theorem digitChar_mem (k : Nat) (hk : k < 10) : Char.ofNat (48 + k) ∈ digitChars := by
  interval_cases k <;> decide

theorem digitChars_facts (c : Char) (hc : c ∈ digitChars) :
    isPyWs c = false ∧ pyLowerChar c = c ∧ c ≠ ':' ∧ c ≠ '+' ∧ c ≠ '-' ∧
    c ≠ 'i' ∧ c ≠ 'n' ∧ c.isDigit = true := by
  fin_cases hc <;> exact ⟨rfl, rfl, by decide, by decide, by decide, by decide, by decide, rfl⟩

theorem natReprAux_fuel : ∀ f1 f2 n acc, n < f1 → n < f2 →
    natReprAux f1 n acc = natReprAux f2 n acc := by
  intro f1
  induction f1 with
  | zero => intro f2 n acc h1 _; omega
  | succ f ih =>
    intro f2 n acc h1 h2
    cases f2 with
    | zero => omega
    | succ f2' =>
      simp only [natReprAux]
      by_cases hn : n < 10
      · simp [hn]
      · simp only [if_neg hn]
        have hd : n / 10 < n := Nat.div_lt_self (by omega) (by omega)
        exact ih f2' (n / 10) _ (by omega) (by omega)

theorem natReprAux_acc : ∀ fuel n acc, n < fuel →
    natReprAux fuel n acc = natReprChars n ++ acc := by
  intro fuel
  induction fuel with
  | zero => intro n acc h; omega
  | succ f ih =>
    intro n acc h
    by_cases hn : n < 10
    · simp [natReprChars, natReprAux, hn]
    · have hd : n / 10 < n := Nat.div_lt_self (by omega) (by omega)
      have hlhs : natReprAux (f + 1) n acc
          = natReprChars (n / 10) ++ Char.ofNat (48 + n % 10) :: acc := by
        simp only [natReprAux, if_neg hn]
        exact ih (n / 10) _ (by omega)
      have hrhs : natReprChars n
          = natReprChars (n / 10) ++ [Char.ofNat (48 + n % 10)] := by
        rw [natReprChars]
        simp only [natReprAux, if_neg hn]
        rw [natReprAux_fuel n f (n / 10) _ (by omega) (by omega)]
        exact ih (n / 10) _ (by omega)
      rw [hlhs, hrhs, List.append_assoc, List.singleton_append]

/-- The defining recurrence of `natReprChars`. -/
theorem natReprChars_eq (n : Nat) :
    natReprChars n =
      if n < 10 then [Char.ofNat (48 + n % 10)]
      else natReprChars (n / 10) ++ [Char.ofNat (48 + n % 10)] := by
  by_cases hn : n < 10
  · rw [if_pos hn, natReprChars]
    simp [natReprAux, hn, Nat.mod_eq_of_lt hn]
  · rw [if_neg hn, natReprChars]
    simp only [natReprAux, if_neg hn]
    have hd : n / 10 < n := Nat.div_lt_self (by omega) (by omega)
    exact natReprAux_acc n (n / 10) _ hd

theorem natReprChars_mem (n : Nat) : ∀ c ∈ natReprChars n, c ∈ digitChars := by
  induction n using Nat.strong_induction_on with
  | _ n ih =>
    intro c hc
    rw [natReprChars_eq] at hc
    by_cases hn : n < 10
    · rw [if_pos hn] at hc
      rcases List.mem_singleton.mp hc with rfl
      exact digitChar_mem _ (Nat.mod_lt _ (by omega))
    · rw [if_neg hn] at hc
      rcases List.mem_append.mp hc with h1 | h1
      · exact ih (n / 10) (Nat.div_lt_self (by omega) (by omega)) c h1
      · rcases List.mem_singleton.mp h1 with rfl
        exact digitChar_mem _ (Nat.mod_lt _ (by omega))

theorem natReprChars_ne_nil (n : Nat) : natReprChars n ≠ [] := by
  rw [natReprChars_eq]
  by_cases hn : n < 10
  · simp [hn]
  · simp [hn]

theorem digitChar_toNat (k : Nat) (hk : k < 10) : (Char.ofNat (48 + k)).toNat = 48 + k := by
  interval_cases k <;> decide

theorem foldlDigits_natReprChars (n : Nat) : ∀ a,
    foldlDigits a (natReprChars n) = a * 10 ^ (natReprChars n).length + n := by
  induction n using Nat.strong_induction_on with
  | _ n ih =>
    intro a
    by_cases hn : n < 10
    · rw [natReprChars_eq, if_pos hn]
      simp only [foldlDigits, List.foldl_cons, List.foldl_nil, List.length_singleton]
      rw [digitChar_toNat _ (Nat.mod_lt _ (by omega))]
      omega
    · have hd : n / 10 < n := Nat.div_lt_self (by omega) (by omega)
      rw [natReprChars_eq, if_neg hn]
      simp only [foldlDigits] at ih ⊢
      rw [List.foldl_append]
      simp only [List.foldl_cons, List.foldl_nil]
      rw [ih (n / 10) hd a, digitChar_toNat _ (Nat.mod_lt _ (by omega))]
      rw [List.length_append, List.length_singleton, pow_succ]
      have hmod := Nat.div_add_mod n 10
      ring_nf
      omega

theorem stripChars_id (l : List Char) (h : ∀ c ∈ l, isPyWs c = false) :
    stripChars l = l := by
  have h1 : ∀ t : List Char, (∀ c ∈ t, isPyWs c = false) → t.dropWhile isPyWs = t := by
    intro t ht
    cases t with
    | nil => rfl
    | cons a u => simp [List.dropWhile_cons, ht a (List.mem_cons_self a u)]
  unfold stripChars
  rw [h1 l h, h1 l.reverse (fun c hc => h c (List.mem_reverse.mp hc)), List.reverse_reverse]

theorem splitCh_no_sep (sep : Char) : ∀ xs, (∀ c ∈ xs, c ≠ sep) →
    splitCh sep xs = [xs] := by
  intro xs
  induction xs with
  | nil => intro _; rfl
  | cons x t ih =>
    intro h
    have hx : x ≠ sep := h x (List.mem_cons_self x t)
    simp only [splitCh, if_neg hx]
    rw [ih (fun c hc => h c (List.mem_cons_of_mem x hc))]

theorem splitCh_append (sep : Char) : ∀ xs ys, (∀ c ∈ xs, c ≠ sep) →
    splitCh sep (xs ++ sep :: ys) = xs :: splitCh sep ys := by
  intro xs
  induction xs with
  | nil =>
    intro ys _
    simp [splitCh]
  | cons x t ih =>
    intro ys h
    have hx : x ≠ sep := h x (List.mem_cons_self x t)
    simp only [List.cons_append, splitCh, if_neg hx, List.append_eq]
    rw [ih ys (fun c hc => h c (List.mem_cons_of_mem x hc))]

theorem takeDigitsAux_all : ∀ ds acc n, (∀ c ∈ ds, c.isDigit = true) →
    takeDigitsAux acc n ds = (foldlDigits acc ds, n + ds.length, []) := by
  intro ds
  induction ds with
  | nil => intro acc n _; simp [takeDigitsAux, foldlDigits]
  | cons c t ih =>
    intro acc n h
    have hc : c.isDigit = true := h c (List.mem_cons_self c t)
    simp only [takeDigitsAux, hc, if_true]
    rw [ih _ _ (fun x hx => h x (List.mem_cons_of_mem c hx))]
    have hlen : n + 1 + t.length = n + (c :: t).length := by
      simp only [List.length_cons]
      omega
    rw [hlen]
    rfl

theorem intReprChars_natCast (n : Nat) : intReprChars (n : Int) = natReprChars n := by
  unfold intReprChars
  rw [if_neg (not_lt.mpr (Int.natCast_nonneg n)), Int.toNat_natCast]

theorem pad2_natCast (n : Nat) :
    pad2 (n : Int) =
      if (natReprChars n).length < 2 then '0' :: natReprChars n else natReprChars n := by
  unfold pad2
  rw [intReprChars_natCast]

theorem pad2_mem (n : Nat) : ∀ c ∈ pad2 (n : Int), c ∈ digitChars := by
  rw [pad2_natCast]
  by_cases hl : (natReprChars n).length < 2
  · rw [if_pos hl]
    intro c hc
    rcases List.mem_cons.mp hc with rfl | hc
    · decide
    · exact natReprChars_mem n c hc
  · rw [if_neg hl]
    exact natReprChars_mem n

theorem pad2_val (n : Nat) : foldlDigits 0 (pad2 (n : Int)) = n := by
  rw [pad2_natCast]
  have hv := foldlDigits_natReprChars n 0
  rw [zero_mul, zero_add] at hv
  by_cases hl : (natReprChars n).length < 2
  · rw [if_pos hl]
    simp only [foldlDigits, List.foldl_cons]
    have h0 : (0 : Nat) * 10 + ('0'.toNat - 48) = 0 := by decide
    rw [h0]
    exact hv
  · rw [if_neg hl]
    exact hv

theorem pad2_ne_nil (n : Nat) : pad2 (n : Int) ≠ [] := by
  rw [pad2_natCast]
  by_cases hl : (natReprChars n).length < 2
  · rw [if_pos hl]; exact List.cons_ne_nil _ _
  · rw [if_neg hl]; exact natReprChars_ne_nil n

theorem takeDigitsU_all : ∀ ds acc n, (∀ c ∈ ds, c.isDigit = true) →
    takeDigitsU acc n ds = some (foldlDigits acc ds, n + ds.length, []) := by
  intro ds
  induction ds with
  | nil => intro acc n _; simp [takeDigitsU, foldlDigits]
  | cons c t ih =>
    intro acc n h
    have hc : c.isDigit = true := h c (List.mem_cons_self c t)
    simp only [takeDigitsU, hc, if_true]
    rw [ih _ _ (fun x hx => h x (List.mem_cons_of_mem c hx))]
    have hlen : n + 1 + t.length = n + (c :: t).length := by
      simp only [List.length_cons]
      omega
    rw [hlen]
    rfl

theorem log2Aux_spec : ∀ fuel n, 0 < n → n ≤ fuel →
    2 ^ log2Aux fuel n ≤ n ∧ n < 2 ^ (log2Aux fuel n + 1) := by
  intro fuel
  induction fuel with
  | zero => intro n h1 h2; omega
  | succ f ih =>
    intro n h1 h2
    by_cases hn : 2 ≤ n
    · obtain ⟨hlo, hhi⟩ := ih (n / 2) (by omega) (by omega)
      simp only [log2Aux, if_pos hn]
      simp only [pow_succ] at hlo hhi ⊢
      omega
    · have hn1 : n = 1 := by omega
      subst hn1
      simp [log2Aux]

/-- `natLog2 n` is the floor of `log₂ n`: `n` lies in its binade. -/
theorem natLog2_spec (n : Nat) (h : 0 < n) :
    2 ^ natLog2 n ≤ n ∧ n < 2 ^ (natLog2 n + 1) :=
  log2Aux_spec n n h le_rfl

theorem roundHalfEven_one (p : Nat) : roundHalfEven p 1 = p := by
  simp [roundHalfEven, Nat.mod_one, Nat.div_one]

/-- Rounding an integer below `2 ^ 53` to binary64 is exact: the rounding
quantum divides the value, so the fraction returned is the value itself
scaled by a power of two. -/
theorem roundPos_int (n : Nat) (h1 : 0 < n) (h2 : n < 2 ^ 53) :
    roundPos n 1 = some (n * 2 ^ (52 - natLog2 n), 2 ^ (52 - natLog2 n)) := by
  obtain ⟨hlo, hhi⟩ := natLog2_spec n h1
  have he52 : natLog2 n ≤ 52 := by
    by_contra hgt
    push_neg at hgt
    have hp : (2 : Nat) ^ 53 ≤ 2 ^ natLog2 n := Nat.pow_le_pow_right (by norm_num) hgt
    omega
  have hrl : ratLog2 n 1 = (natLog2 n : Int) := by
    unfold ratLog2
    rw [if_pos (show 1 ≤ n from h1), Nat.div_one]
  unfold roundPos
  rw [hrl]
  rw [if_neg (by omega : ¬ ((natLog2 n : Int) - 52 < -1074))]
  by_cases h52 : natLog2 n < 52
  · rw [if_pos (by omega : (natLog2 n : Int) - 52 < 0)]
    have ht : ((52 : Int) - (natLog2 n : Int)).toNat = 52 - natLog2 n := by omega
    rw [ht, roundHalfEven_one]
  · have h52e : natLog2 n = 52 := by omega
    rw [h52e]
    norm_num
    rw [roundHalfEven_one]
    refine ⟨?_, rfl⟩
    norm_num at h2
    omega

/-- Casting `Nat` division to `Int` truncating division. -/
theorem tdiv_natCast (a b : Nat) : Int.tdiv (a : Int) (b : Int) = ((a / b : Nat) : Int) := rfl

theorem intFloat_digits (ds : List Char) (hne : ds ≠ [])
    (h : ∀ c ∈ ds, c ∈ digitChars) (hval : foldlDigits 0 ds < 2 ^ 53) :
    intFloat ⟨ds⟩ = .ok ((foldlDigits 0 ds : Nat) : Int) := by
  have hws : ∀ c ∈ ds, isPyWs c = false := fun c hc => (digitChars_facts c (h c hc)).1
  have hdig : ∀ c ∈ ds, c.isDigit = true :=
    fun c hc => (digitChars_facts c (h c hc)).2.2.2.2.2.2.2
  obtain ⟨c, t, rfl⟩ : ∃ c t, ds = c :: t := by
    cases ds with
    | nil => exact absurd rfl hne
    | cons c t => exact ⟨c, t, rfl⟩
  have hc := digitChars_facts c (h c (List.mem_cons_self c t))
  have hstrip : stripChars (c :: t) = c :: t := stripChars_id _ hws
  have hsign : splitSign (c :: t) = (1, c :: t) := by
    simp only [splitSign]
    rw [if_neg hc.2.2.2.1, if_neg hc.2.2.2.2.1]
  have hlower : lowerStr (c :: t) = c :: lowerStr t := by
    simp [lowerStr, hc.2.1]
  have hP1 : ¬(lowerStr (c :: t) = "inf".data ∨ lowerStr (c :: t) = "infinity".data) := by
    rw [hlower]
    rintro (heq | heq)
    · rw [show "inf".data = 'i' :: 'n' :: 'f' :: [] from rfl] at heq
      injection heq with h1 _
      exact hc.2.2.2.2.2.1 h1
    · rw [show "infinity".data =
          'i' :: 'n' :: 'f' :: 'i' :: 'n' :: 'i' :: 't' :: 'y' :: [] from rfl] at heq
      injection heq with h1 _
      exact hc.2.2.2.2.2.1 h1
  have hP2 : ¬ lowerStr (c :: t) = "nan".data := by
    rw [hlower, show "nan".data = 'n' :: 'a' :: 'n' :: [] from rfl]
    intro heq
    injection heq with h1 _
    exact hc.2.2.2.2.2.2.1 h1
  have hpd : parseDecimal (c :: t) = some (foldlDigits 0 (c :: t), 1) := by
    unfold parseDecimal
    rw [takeDigitsU_all _ _ _ hdig]
    simp
  by_cases hz : foldlDigits 0 (c :: t) = 0
  · unfold intFloat pyFloatParse
    simp [show (⟨c :: t⟩ : String).data = c :: t from rfl, hstrip, hsign, hP1, hP2, hpd, hz]
  · have hround := roundPos_int (foldlDigits 0 (c :: t)) (Nat.pos_of_ne_zero hz) hval
    unfold intFloat pyFloatParse
    simp only [show (⟨c :: t⟩ : String).data = c :: t from rfl, hstrip, hsign, hP1, hP2, hpd,
      hz, hround, if_false, if_neg, one_mul]
    rw [tdiv_natCast, Nat.mul_div_cancel _ (Nat.pos_pow_of_pos _ (by norm_num))]

theorem parse_duration_hhmmss (h m s : Nat)
    (hbound : 3600 * h + 60 * m + s < 86400000000000) :
    parse_duration (some (hhmmss h m s)) =
      .ok (3600 * (h : Int) + 60 * (m : Int) + (s : Int)) := by
  have h53 : (2 : Nat) ^ 53 = 9007199254740992 := by norm_num
  have hA := pad2_mem h
  have hB := pad2_mem m
  have hC := pad2_mem s
  have hcolon : ∀ n : Nat, ∀ c ∈ pad2 (n : Int), c ≠ ':' :=
    fun n c hc => (digitChars_facts c (pad2_mem n c hc)).2.2.1
  have hws : ∀ c ∈ pad2 (h : Int) ++ ':' :: (pad2 (m : Int) ++ ':' :: pad2 (s : Int)),
      isPyWs c = false := by
    intro c hc
    rcases List.mem_append.mp hc with hc1 | hc2
    · exact (digitChars_facts c (hA c hc1)).1
    · rcases List.mem_cons.mp hc2 with rfl | hc3
      · decide
      · rcases List.mem_append.mp hc3 with hc4 | hc5
        · exact (digitChars_facts c (hB c hc4)).1
        · rcases List.mem_cons.mp hc5 with rfl | hc6
          · decide
          · exact (digitChars_facts c (hC c hc6)).1
  have hsplit :
      splitCh ':' (pad2 (h : Int) ++ ':' :: (pad2 (m : Int) ++ ':' :: pad2 (s : Int))) =
      [pad2 (h : Int), pad2 (m : Int), pad2 (s : Int)] := by
    rw [splitCh_append ':' _ _ (hcolon h), splitCh_append ':' _ _ (hcolon m),
      splitCh_no_sep ':' _ (hcolon s)]
  have hIA : intFloat ⟨pad2 (h : Int)⟩ = .ok (h : Int) := by
    rw [intFloat_digits _ (pad2_ne_nil h) hA (by rw [pad2_val, h53]; omega), pad2_val]
  have hIB : intFloat ⟨pad2 (m : Int)⟩ = .ok (m : Int) := by
    rw [intFloat_digits _ (pad2_ne_nil m) hB (by rw [pad2_val, h53]; omega), pad2_val]
  have hIC : intFloat ⟨pad2 (s : Int)⟩ = .ok (s : Int) := by
    rw [intFloat_digits _ (pad2_ne_nil s) hC (by rw [pad2_val, h53]; omega), pad2_val]
  have hstr : pyStrip ⟨pad2 (h : Int) ++ ':' :: (pad2 (m : Int) ++ ':' :: pad2 (s : Int))⟩ =
      ⟨pad2 (h : Int) ++ ':' :: (pad2 (m : Int) ++ ':' :: pad2 (s : Int))⟩ :=
    congrArg String.mk (stripChars_id _ hws)
  unfold parse_duration hhmmss
  simp [hstr, hsplit, hIA, hIB, hIC]
  show (if 999999999 < ((3600 * (h : Int) + 60 * (m : Int) + (s : Int)) / 86400).natAbs
      then Except.error PyExc.overflowError
      else Except.ok (3600 * (h : Int) + 60 * (m : Int) + (s : Int))) =
    Except.ok (3600 * (h : Int) + 60 * (m : Int) + (s : Int))
  rw [if_neg (by omega :
    ¬ 999999999 < ((3600 * (h : Int) + 60 * (m : Int) + (s : Int)) / 86400).natAbs)]

/-- Claim C5, amended: parsing a valid zero-padded `"HH:MM:SS"` string
and formatting the result returns the same string, for totals below
86400000000000 seconds (10^9 days); hours are not wrapped at 24 (three
and more hour digits render as such, e.g. 125).  The bound is necessary:
from 10^9 days upward the `timedelta` constructor overflows and
`parse_duration` raises `OverflowError` instead of returning a duration,
see the counterexample. -/
theorem claim_C5_duration_round_trip (h m s : Nat) (hm : m < 60) (hs : s < 60)
    (hbound : 3600 * h + 60 * m + s < 86400000000000) :
    parse_duration (some (hhmmss h m s)) =
      .ok (3600 * (h : Int) + 60 * (m : Int) + (s : Int)) ∧
    format_duration (3600 * (h : Int) + 60 * (m : Int) + (s : Int)) = hhmmss h m s := by
  refine ⟨parse_duration_hhmmss h m s hbound, ?_⟩
  unfold format_duration hhmmss
  have e1 : (3600 * (h : Int) + 60 * (m : Int) + (s : Int)) / 3600 = (h : Int) := by omega
  have e2 : (3600 * (h : Int) + 60 * (m : Int) + (s : Int)) % 3600 / 60 = (m : Int) := by omega
  have e3 : (3600 * (h : Int) + 60 * (m : Int) + (s : Int)) % 60 = (s : Int) := by omega
  simp only [e1, e2, e3]

/-- Claim C5 is false as stated: `"24000000000:00:00"` is a valid
zero-padded `"HH:MM:SS"` string with non-negative integer parts, yet the
round trip does not return the string: the parsed total of
86400000000000 seconds normalizes to 10^9 days, beyond the `timedelta`
day bound of 999999999, so `parse_duration` raises `OverflowError`
(uncaught by the `except ValueError` clause) instead of producing a
duration to format. -/
theorem claim_C5_counterexample :
    hhmmss 24000000000 0 0 = "24000000000:00:00" ∧
    parse_duration (some "24000000000:00:00") = .error .overflowError := by
  constructor
  · decide
  · decide

theorem claim_C5_duration_round_trip_witness :
    ((2 : Nat) < 60 ∧ (5 : Nat) < 60 ∧ 3600 * 125 + 60 * 2 + 5 < 86400000000000) ∧
    parse_duration (some (hhmmss 125 2 5)) = .ok 450125 ∧
    format_duration 450125 = hhmmss 125 2 5 := by
  have hw := claim_C5_duration_round_trip 125 2 5 (by norm_num) (by norm_num) (by norm_num)
  norm_num at hw
  exact ⟨by norm_num, hw⟩

/-! ### Ordering lemmas (towards C4) -/

theorem charToNat_inj (a b : Char) (h : a.toNat = b.toNat) : a = b := by
  have hv : a.val = b.val := by
    unfold Char.toNat at h
    exact UInt32.toNat.inj h
  exact Char.eq_of_val_eq hv

theorem strLtB_irrefl : ∀ a, strLtB a a = false := by
  intro a
  induction a with
  | nil => rfl
  | cons c t ih => simp [strLtB, ih]

theorem strLtB_trans : ∀ a b c, strLtB a b = true → strLtB b c = true →
    strLtB a c = true := by
  intro a
  induction a with
  | nil =>
    intro b c hab hbc
    cases b with
    | nil => simp [strLtB] at hab
    | cons y u =>
      cases c with
      | nil => simp [strLtB] at hbc
      | cons z v => rfl
  | cons x t ih =>
    intro b c hab hbc
    cases b with
    | nil => simp [strLtB] at hab
    | cons y u =>
      cases c with
      | nil => simp [strLtB] at hbc
      | cons z v =>
        simp only [strLtB, Bool.or_eq_true, Bool.and_eq_true, decide_eq_true_eq,
          beq_iff_eq] at hab hbc ⊢
        rcases hab with h1 | ⟨he1, h1⟩
        · rcases hbc with h2 | ⟨he2, h2⟩
          · left; omega
          · subst he2; left; exact h1
        · rcases hbc with h2 | ⟨he2, h2⟩
          · subst he1; left; exact h2
          · right; exact ⟨he1.trans he2, ih u v h1 h2⟩

theorem strLtB_connex : ∀ a b, strLtB a b = false → strLtB b a = false → a = b := by
  intro a
  induction a with
  | nil =>
    intro b hab _
    cases b with
    | nil => rfl
    | cons y u => simp [strLtB] at hab
  | cons x t ih =>
    intro b hab hba
    cases b with
    | nil => simp [strLtB] at hba
    | cons y u =>
      simp only [strLtB, Bool.or_eq_false_iff, Bool.and_eq_false_iff,
        decide_eq_false_iff_not, not_lt] at hab hba
      have hxy : x = y := by
        apply charToNat_inj
        omega
      subst hxy
      rcases hab.2 with h1 | h1
      · simp at h1
      · rcases hba.2 with h2 | h2
        · simp at h2
        · rw [ih u h1 h2]

theorem strLtB_asymm (a b : List Char) (h : strLtB a b = true) : strLtB b a = false := by
  by_contra hc
  rw [Bool.not_eq_false] at hc
  have := strLtB_trans a b a h hc
  rw [strLtB_irrefl] at this
  cases this

theorem keyLtB_irrefl (a : Nat × List Char × List Char) : keyLtB a a = false := by
  obtain ⟨n, s, t⟩ := a
  simp [keyLtB, strLtB_irrefl]

theorem keyLtB_trans (a b c : Nat × List Char × List Char)
    (hab : keyLtB a b = true) (hbc : keyLtB b c = true) : keyLtB a c = true := by
  obtain ⟨n1, s1, t1⟩ := a
  obtain ⟨n2, s2, t2⟩ := b
  obtain ⟨n3, s3, t3⟩ := c
  simp only [keyLtB, Bool.or_eq_true, Bool.and_eq_true, decide_eq_true_eq,
    beq_iff_eq] at hab hbc ⊢
  rcases hab with h1 | ⟨he1, h1⟩
  · rcases hbc with h2 | ⟨he2, _⟩
    · left; omega
    · subst he2; left; exact h1
  · rcases hbc with h2 | ⟨he2, h2⟩
    · subst he1; left; exact h2
    · subst he1; subst he2
      right
      refine ⟨rfl, ?_⟩
      rcases h1 with h1a | ⟨he1b, h1b⟩
      · rcases h2 with h2a | ⟨he2b, _⟩
        · left; exact strLtB_trans _ _ _ h1a h2a
        · subst he2b; left; exact h1a
      · rcases h2 with h2a | ⟨he2b, h2b⟩
        · subst he1b; left; exact h2a
        · subst he1b; subst he2b
          right; exact ⟨rfl, strLtB_trans _ _ _ h1b h2b⟩

theorem keyLtB_connex (a b : Nat × List Char × List Char)
    (hab : keyLtB a b = false) (hba : keyLtB b a = false) : a = b := by
  obtain ⟨n1, s1, t1⟩ := a
  obtain ⟨n2, s2, t2⟩ := b
  simp only [keyLtB, Bool.or_eq_false_iff, Bool.and_eq_false_iff,
    decide_eq_false_iff_not, not_lt, beq_eq_false_iff_ne, ne_eq] at hab hba
  have hn : n1 = n2 := by omega
  subst hn
  have hA : strLtB s1 s2 = false ∧ (¬ s1 = s2 ∨ strLtB t1 t2 = false) := by
    rcases hab.2 with h | h
    · exact absurd rfl h
    · exact h
  have hB : strLtB s2 s1 = false ∧ (¬ s2 = s1 ∨ strLtB t2 t1 = false) := by
    rcases hba.2 with h | h
    · exact absurd rfl h
    · exact h
  have hs : s1 = s2 := strLtB_connex _ _ hA.1 hB.1
  subst hs
  have ht1 : strLtB t1 t2 = false := by
    rcases hA.2 with h | h
    · exact absurd rfl h
    · exact h
  have ht2 : strLtB t2 t1 = false := by
    rcases hB.2 with h | h
    · exact absurd rfl h
    · exact h
  rw [strLtB_connex _ _ ht1 ht2]

theorem keyLtB_asymm (a b : Nat × List Char × List Char)
    (h : keyLtB a b = true) : keyLtB b a = false := by
  by_contra hc
  rw [Bool.not_eq_false] at hc
  have hr := keyLtB_trans a b a h hc
  rw [keyLtB_irrefl] at hr
  cases hr

instance : IsTotal ModelResult resLe where
  total x y := by
    unfold resLe
    cases hb : keyLtB (sortKey y) (sortKey x) with
    | false => left; rfl
    | true => right; exact keyLtB_asymm _ _ hb

instance : IsTrans ModelResult resLe where
  trans x y z hxy hyz := by
    unfold resLe at hxy hyz ⊢
    by_contra hc
    rw [Bool.not_eq_false] at hc
    cases hky : keyLtB (sortKey x) (sortKey y) with
    | false =>
      have he := keyLtB_connex _ _ hky hxy
      rw [he] at hc
      rw [hc] at hyz
      cases hyz
    | true =>
      have hr := keyLtB_trans _ _ _ hc hky
      rw [hr] at hyz
      cases hyz

theorem sortResults_sorted (l : List ModelResult) :
    List.Sorted resLe (sortResults l) :=
  List.sorted_insertionSort resLe l

theorem sortResults_key_lt (l : List ModelResult) (i j : Nat)
    (hi : i < (sortResults l).length) (hj : j < (sortResults l).length)
    (hlt : keyLtB (sortKey ((sortResults l).get ⟨i, hi⟩))
      (sortKey ((sortResults l).get ⟨j, hj⟩)) = true) : i < j := by
  rcases Nat.lt_trichotomy i j with h | h | h
  · exact h
  · subst h
    rw [show (⟨i, hj⟩ : Fin (sortResults l).length) = ⟨i, hi⟩ from rfl] at hlt
    rw [keyLtB_irrefl] at hlt
    cases hlt
  · have hp := List.pairwise_iff_get.mp (sortResults_sorted l) ⟨j, hj⟩ ⟨i, hi⟩ h
    unfold resLe at hp
    rw [hp] at hlt
    cases hlt

/-- Claim C4: in the sorted result list, every section of group `ТЭ`
precedes every section of group `ТАН-1`, those precede `ТАН-2`, those
`ТАН-3`, and those every section with an unrecognized group (priority
100); within equal groups the order is alphabetical by lowercased name.
The first clause is the general priority statement the four concrete
group pairs instantiate. -/
theorem claim_C4_result_ordering (l : List ModelResult) (i j : Nat)
    (hi : i < (sortResults l).length) (hj : j < (sortResults l).length) :
    (groupRank ((sortResults l).get ⟨i, hi⟩).group <
       groupRank ((sortResults l).get ⟨j, hj⟩).group → i < j) ∧
    (((sortResults l).get ⟨i, hi⟩).group = "ТЭ" →
       ((sortResults l).get ⟨j, hj⟩).group = "ТАН-1" → i < j) ∧
    (((sortResults l).get ⟨i, hi⟩).group = "ТАН-1" →
       ((sortResults l).get ⟨j, hj⟩).group = "ТАН-2" → i < j) ∧
    (((sortResults l).get ⟨i, hi⟩).group = "ТАН-2" →
       ((sortResults l).get ⟨j, hj⟩).group = "ТАН-3" → i < j) ∧
    (((sortResults l).get ⟨i, hi⟩).group = "ТАН-3" →
       groupRank ((sortResults l).get ⟨j, hj⟩).group = 100 → i < j) ∧
    (((sortResults l).get ⟨i, hi⟩).group = ((sortResults l).get ⟨j, hj⟩).group →
       strLtB (lowerStr ((sortResults l).get ⟨i, hi⟩).name.data)
         (lowerStr ((sortResults l).get ⟨j, hj⟩).name.data) = true → i < j) := by
  have hrank : groupRank ((sortResults l).get ⟨i, hi⟩).group <
      groupRank ((sortResults l).get ⟨j, hj⟩).group → i < j := by
    intro h
    apply sortResults_key_lt l i j hi hj
    simp only [keyLtB, sortKey, Bool.or_eq_true, Bool.and_eq_true,
      decide_eq_true_eq, beq_iff_eq]
    exact Or.inl h
  refine ⟨hrank, ?_, ?_, ?_, ?_, ?_⟩
  · intro h1 h2
    exact hrank (by rw [h1, h2]; decide)
  · intro h1 h2
    exact hrank (by rw [h1, h2]; decide)
  · intro h1 h2
    exact hrank (by rw [h1, h2]; decide)
  · intro h1 h2
    exact hrank (by rw [h1, h2]; decide)
  · intro h1 h2
    apply sortResults_key_lt l i j hi hj
    simp only [keyLtB, sortKey, Bool.or_eq_true, Bool.and_eq_true,
      decide_eq_true_eq, beq_iff_eq]
    right
    exact ⟨by rw [h1], Or.inr ⟨by rw [h1], h2⟩⟩

theorem claim_C4_result_ordering_witness : (0 : Nat) < 1 :=
  (claim_C4_result_ordering
    [{ name := "y", group := "ТАН-1", total_points := none,
       counts := initCounts, sums := initSums },
     { name := "x", group := "ТЭ", total_points := none,
       counts := initCounts, sums := initSums }]
    0 1 (by decide) (by decide)).2.1 (by decide) (by decide)

/-! ### Row-scan lemmas (towards C1 and C6) -/

theorem ok_bind {ε α β : Type} (x : α) (g : α → Except ε β) :
    (Except.ok x : Except ε α) >>= g = g x := rfl

theorem error_bind {ε α β : Type} (e : ε) (g : α → Except ε β) :
    (Except.error e : Except ε α) >>= g = Except.error e := rfl

theorem map_ok {ε α β : Type} (f : α → β) (x : α) :
    Except.map f (Except.ok x : Except ε α) = .ok (f x) := rfl

theorem map_error {ε α β : Type} (f : α → β) (e : ε) :
    Except.map f (Except.error e : Except ε α) = .error e := rfl

theorem fmap_ok {ε α β : Type} (f : α → β) (x : α) :
    f <$> (Except.ok x : Except ε α) = .ok (f x) := rfl

theorem fmap_error {ε α β : Type} (f : α → β) (e : ε) :
    f <$> (Except.error e : Except ε α) = .error e := rfl

theorem pure_eq_ok {ε α : Type} (x : α) : (pure x : Except ε α) = .ok x := rfl

theorem projRC_flush (st : ScanState) : projRC (flushModel st) = flushRC (projRC st) := by
  obtain ⟨pd, res, cur⟩ := st
  cases cur <;> rfl

theorem scanRowUpd_rc (nc dc : Nat) (st2 : ScanState) (texts : List String) :
    Except.map projRC (scanRowUpd nc dc st2 texts) =
      scanRowUpdRC nc dc (projRC st2) texts := by
  obtain ⟨pd, res, cur⟩ := st2
  unfold scanRowUpd scanRowUpdRC
  generalize texts.getD (nc - 1) "" = ntxt
  generalize texts.getD (dc - 1) "" = dtxt
  cases cur with
  | none =>
    cases he : _is_section_end texts <;>
      simp [projRC, flushModel, flushRC, he, Except.map, pure_eq_ok, ok_bind, error_bind]
  | some c =>
    cases hu : _update_point_data c ntxt dtxt with
    | error e =>
      simp [projRC, hu, Except.map, fmap_error, pure_eq_ok, ok_bind, error_bind]
    | ok c2 =>
      cases he : _is_section_end texts <;>
        simp [projRC, flushModel, flushRC, he, hu, Except.map, fmap_ok, pure_eq_ok,
          ok_bind, error_bind]

theorem scanRowTail_rc (nc dc : Nat) (st1 : ScanState) (texts : List String) :
    Except.map projRC (scanRowTail nc dc st1 texts) =
      scanRowRC nc dc (projRC st1) texts := by
  unfold scanRowTail scanRowRC
  cases hm : _extract_model_name texts with
  | none => exact scanRowUpd_rc nc dc st1 texts
  | some m =>
    by_cases hne : m = ""
    · subst hne
      show Except.map projRC (scanRowUpd nc dc st1 texts) =
        scanRowUpdRC nc dc (projRC st1) texts
      exact scanRowUpd_rc nc dc st1 texts
    · show Except.map projRC (scanRowUpd nc dc
          (if m ≠ "" then { flushModel st1 with current := some (_create_empty_result m) }
           else st1) texts) =
        scanRowUpdRC nc dc
          (if m ≠ "" then ((flushRC (projRC st1)).1, some (_create_empty_result m))
           else projRC st1) texts
      rw [if_pos hne, if_pos hne]
      have hpair : projRC { flushModel st1 with current := some (_create_empty_result m) } =
          ((flushRC (projRC st1)).1, some (_create_empty_result m)) := by
        obtain ⟨pd, res, cur⟩ := st1
        cases cur <;> rfl
      rw [← hpair]
      exact scanRowUpd_rc nc dc _ texts

theorem scanRow_rc (nc dc : Nat) (st : ScanState) (texts : List String) :
    Except.map projRC (scanRow nc dc st texts) = scanRowRC nc dc (projRC st) texts := by
  unfold scanRow
  cases hp : _extract_period texts with
  | none => exact scanRowTail_rc nc dc st texts
  | some p =>
    rw [show projRC st = projRC { st with period_date := p } from rfl]
    exact scanRowTail_rc nc dc _ texts

theorem foldlM_rc (nc dc : Nat) : ∀ (rows : List (List String)) (st : ScanState),
    Except.map projRC (rows.foldlM (scanRow nc dc) st) =
      rows.foldlM (scanRowRC nc dc) (projRC st) := by
  intro rows
  induction rows with
  | nil => intro st; rfl
  | cons t ts ih =>
    intro st
    rw [List.foldlM_cons, List.foldlM_cons]
    cases hs : scanRow nc dc st t with
    | error e =>
      have hrc := scanRow_rc nc dc st t
      rw [hs] at hrc
      rw [error_bind, map_error, ← hrc, map_error, error_bind]
    | ok st2 =>
      have hrc := scanRow_rc nc dc st t
      rw [hs] at hrc
      rw [ok_bind, ← hrc, map_ok, ok_bind]
      exact ih st2

theorem scanRows_rc (nc dc : Nat) (rows : List (List String)) :
    scanRows nc dc rows =
      Except.map (fun rc => (flushRC rc).1)
        (rows.foldlM (scanRowRC nc dc) ([], none)) := by
  unfold scanRows
  rw [show (([], none) : List ModelResult × Option ModelResult) =
      projRC ⟨"", [], none⟩ from rfl]
  rw [← foldlM_rc nc dc rows ⟨"", [], none⟩]
  cases hf : rows.foldlM (scanRow nc dc) ⟨"", [], none⟩ with
  | error e => rfl
  | ok st =>
    have h1 : (flushModel st).results = (flushRC (projRC st)).1 :=
      congrArg Prod.fst (projRC_flush st)
    simp [Except.map, ok_bind, h1]

theorem scanRowRC_header (nc dc : Nat) (rc : List ModelResult × Option ModelResult)
    (t : List String) (m : String)
    (hm : _extract_model_name t = some m) (hne : m ≠ "")
    (hpt : _extract_point_index (t.getD (nc - 1) "") = none)
    (hend : _is_section_end t = false) :
    scanRowRC nc dc rc t = .ok ((flushRC rc).1, some (_create_empty_result m)) := by
  unfold scanRowRC scanRowUpdRC _update_point_data
  rw [hm]
  try dsimp only
  rw [if_pos hne]
  try dsimp only
  rw [hpt]
  try dsimp only
  rw [hend]
  rfl

theorem scanRowRC_data (nc dc : Nat) (res : List ModelResult) (cur : ModelResult)
    (t : List String) (i : Nat) (v : Int)
    (hm : _extract_model_name t = none)
    (hpt : _extract_point_index (t.getD (nc - 1) "") = some i)
    (hd : parse_duration (some (t.getD (dc - 1) "")) = .ok v)
    (hend : _is_section_end t = false) :
    scanRowRC nc dc (res, some cur) t =
      .ok (res, some { cur with counts := bumpKey cur.counts i,
                                sums := addKey cur.sums i v }) := by
  unfold scanRowRC scanRowUpdRC _update_point_data
  rw [hm]
  try dsimp only
  rw [hpt]
  try dsimp only
  rw [hd]
  try dsimp only
  rw [hend]
  rfl

theorem scanRowRC_idle (nc dc : Nat) (res : List ModelResult) (t : List String)
    (hm : _extract_model_name t = none) :
    scanRowRC nc dc (res, none) t = .ok (res, none) := by
  unfold scanRowRC scanRowUpdRC
  rw [hm]
  dsimp only
  cases _is_section_end t <;> rfl

theorem scanRowRC_end (nc dc : Nat) (res : List ModelResult) (cur : ModelResult)
    (t : List String)
    (hm : _extract_model_name t = none)
    (hpt : _extract_point_index (t.getD (nc - 1) "") = none)
    (hend : _is_section_end t = true) :
    scanRowRC nc dc (res, some cur) t = .ok (res ++ [cur], none) := by
  unfold scanRowRC scanRowUpdRC _update_point_data
  rw [hm]
  try dsimp only
  rw [hpt]
  try dsimp only
  rw [hend]
  rfl

/-- Claim C1: a row stream with a first header, data rows for checkpoints
1 and 3, an explicit end marker, a second such section, then a third
header with no end marker before end of input produces exactly 3
aggregated sections in row-encounter order: the first two closed by the
explicit end markers, the third flushed implicitly at end of input; and
the leading end marker, seen while no section is open, changes nothing
(dropping it yields the same result). -/
theorem claim_C1_section_scan (nc dc : Nat)
    (e0 h1r d11 d13 e1 h2r d21 d23 e2 h3r : List String)
    (m1 m2 m3 : String) (v11 v13 v21 v23 : Int)
    (hme0 : _extract_model_name e0 = none)
    (hm1 : _extract_model_name h1r = some m1) (hne1 : m1 ≠ "")
    (hp1 : _extract_point_index (h1r.getD (nc - 1) "") = none)
    (he1 : _is_section_end h1r = false)
    (hmd11 : _extract_model_name d11 = none)
    (hpd11 : _extract_point_index (d11.getD (nc - 1) "") = some 1)
    (hdd11 : parse_duration (some (d11.getD (dc - 1) "")) = .ok v11)
    (hed11 : _is_section_end d11 = false)
    (hmd13 : _extract_model_name d13 = none)
    (hpd13 : _extract_point_index (d13.getD (nc - 1) "") = some 3)
    (hdd13 : parse_duration (some (d13.getD (dc - 1) "")) = .ok v13)
    (hed13 : _is_section_end d13 = false)
    (hme1 : _extract_model_name e1 = none)
    (hpe1 : _extract_point_index (e1.getD (nc - 1) "") = none)
    (hee1 : _is_section_end e1 = true)
    (hm2 : _extract_model_name h2r = some m2) (hne2 : m2 ≠ "")
    (hp2 : _extract_point_index (h2r.getD (nc - 1) "") = none)
    (he2 : _is_section_end h2r = false)
    (hmd21 : _extract_model_name d21 = none)
    (hpd21 : _extract_point_index (d21.getD (nc - 1) "") = some 1)
    (hdd21 : parse_duration (some (d21.getD (dc - 1) "")) = .ok v21)
    (hed21 : _is_section_end d21 = false)
    (hmd23 : _extract_model_name d23 = none)
    (hpd23 : _extract_point_index (d23.getD (nc - 1) "") = some 3)
    (hdd23 : parse_duration (some (d23.getD (dc - 1) "")) = .ok v23)
    (hed23 : _is_section_end d23 = false)
    (hme2 : _extract_model_name e2 = none)
    (hpe2 : _extract_point_index (e2.getD (nc - 1) "") = none)
    (hee2 : _is_section_end e2 = true)
    (hm3 : _extract_model_name h3r = some m3) (hne3 : m3 ≠ "")
    (hp3 : _extract_point_index (h3r.getD (nc - 1) "") = none)
    (he3 : _is_section_end h3r = false) :
    scanRows nc dc [e0, h1r, d11, d13, e1, h2r, d21, d23, e2, h3r] =
      .ok [{ _create_empty_result m1 with
               counts := bumpKey (bumpKey initCounts 1) 3,
               sums := addKey (addKey initSums 1 v11) 3 v13 },
           { _create_empty_result m2 with
               counts := bumpKey (bumpKey initCounts 1) 3,
               sums := addKey (addKey initSums 1 v21) 3 v23 },
           _create_empty_result m3] ∧
    scanRows nc dc [e0, h1r, d11, d13, e1, h2r, d21, d23, e2, h3r] =
      scanRows nc dc [h1r, d11, d13, e1, h2r, d21, d23, e2, h3r] := by
  have h0 : [e0, h1r, d11, d13, e1, h2r, d21, d23, e2, h3r].foldlM
        (scanRowRC nc dc) ([], none) =
      [h1r, d11, d13, e1, h2r, d21, d23, e2, h3r].foldlM (scanRowRC nc dc) ([], none) := by
    rw [List.foldlM_cons, scanRowRC_idle nc dc [] e0 hme0, ok_bind]
  have hstep : [h1r, d11, d13, e1, h2r, d21, d23, e2, h3r].foldlM
        (scanRowRC nc dc) ([], none) =
      .ok ([{ _create_empty_result m1 with
                counts := bumpKey (bumpKey initCounts 1) 3,
                sums := addKey (addKey initSums 1 v11) 3 v13 },
            { _create_empty_result m2 with
                counts := bumpKey (bumpKey initCounts 1) 3,
                sums := addKey (addKey initSums 1 v21) 3 v23 }],
           some (_create_empty_result m3)) := by
    rw [List.foldlM_cons, scanRowRC_header nc dc ([], none) h1r m1 hm1 hne1 hp1 he1, ok_bind,
      List.foldlM_cons, scanRowRC_data nc dc _ _ d11 1 v11 hmd11 hpd11 hdd11 hed11, ok_bind,
      List.foldlM_cons, scanRowRC_data nc dc _ _ d13 3 v13 hmd13 hpd13 hdd13 hed13, ok_bind,
      List.foldlM_cons, scanRowRC_end nc dc _ _ e1 hme1 hpe1 hee1, ok_bind,
      List.foldlM_cons, scanRowRC_header nc dc _ h2r m2 hm2 hne2 hp2 he2, ok_bind,
      List.foldlM_cons, scanRowRC_data nc dc _ _ d21 1 v21 hmd21 hpd21 hdd21 hed21, ok_bind,
      List.foldlM_cons, scanRowRC_data nc dc _ _ d23 3 v23 hmd23 hpd23 hdd23 hed23, ok_bind,
      List.foldlM_cons, scanRowRC_end nc dc _ _ e2 hme2 hpe2 hee2, ok_bind,
      List.foldlM_cons, scanRowRC_header nc dc _ h3r m3 hm3 hne3 hp3 he3, ok_bind,
      List.foldlM_nil]
    rfl
  constructor
  · rw [scanRows_rc, h0, hstep]
    rfl
  · rw [scanRows_rc, scanRows_rc, h0]

theorem claim_C1_section_scan_witness :
    scanRows 3 10
      [["ИТОГО по ТС"],
       ["", "", "Модель: ТЭ Alpha"],
       ["", "", "Точка 1", "", "", "", "", "", "", "00:10:00"],
       ["", "", "Точка 3", "", "", "", "", "", "", "00:05:00"],
       ["ИТОГО по ТС"],
       ["", "", "Модель: ТАН-1 Beta"],
       ["", "", "Точка 1", "", "", "", "", "", "", "00:01:00"],
       ["", "", "Точка 3", "", "", "", "", "", "", "00:00:30"],
       ["ИТОГО по ТС"],
       ["", "", "Модель: Gamma (4)"]] =
      scanRows 3 10
      [["", "", "Модель: ТЭ Alpha"],
       ["", "", "Точка 1", "", "", "", "", "", "", "00:10:00"],
       ["", "", "Точка 3", "", "", "", "", "", "", "00:05:00"],
       ["ИТОГО по ТС"],
       ["", "", "Модель: ТАН-1 Beta"],
       ["", "", "Точка 1", "", "", "", "", "", "", "00:01:00"],
       ["", "", "Точка 3", "", "", "", "", "", "", "00:00:30"],
       ["ИТОГО по ТС"],
       ["", "", "Модель: Gamma (4)"]] :=
  (claim_C1_section_scan 3 10
    ["ИТОГО по ТС"]
    ["", "", "Модель: ТЭ Alpha"]
    ["", "", "Точка 1", "", "", "", "", "", "", "00:10:00"]
    ["", "", "Точка 3", "", "", "", "", "", "", "00:05:00"]
    ["ИТОГО по ТС"]
    ["", "", "Модель: ТАН-1 Beta"]
    ["", "", "Точка 1", "", "", "", "", "", "", "00:01:00"]
    ["", "", "Точка 3", "", "", "", "", "", "", "00:00:30"]
    ["ИТОГО по ТС"]
    ["", "", "Модель: Gamma (4)"]
    "ТЭ Alpha" "ТАН-1 Beta" "Gamma (4)" 600 300 60 30
    (by decide) (by decide) (by decide) (by decide) (by decide)
    (by decide) (by decide) (by decide) (by decide)
    (by decide) (by decide) (by decide) (by decide)
    (by decide) (by decide) (by decide)
    (by decide) (by decide) (by decide) (by decide)
    (by decide) (by decide) (by decide) (by decide)
    (by decide) (by decide) (by decide) (by decide)
    (by decide) (by decide) (by decide)
    (by decide) (by decide) (by decide) (by decide)).2

/-! ### Table invariants (towards C6) -/

theorem bumpKey_keys (d : List (Nat × Nat)) (k : Nat) :
    (bumpKey d k).map Prod.fst = d.map Prod.fst := by
  unfold bumpKey
  rw [List.map_map]
  apply List.map_congr_left
  intro p _
  by_cases h : p.1 = k <;> simp [h]

theorem addKey_keys (d : List (Nat × Int)) (k : Nat) (v : Int) :
    (addKey d k v).map Prod.fst = d.map Prod.fst := by
  unfold addKey
  rw [List.map_map]
  apply List.map_congr_left
  intro p _
  by_cases h : p.1 = k <;> simp [h]

theorem addKey_nonneg (d : List (Nat × Int)) (k : Nat) (v : Int)
    (hv : 0 ≤ v) (hd : ∀ p ∈ d, 0 ≤ p.2) : ∀ p ∈ addKey d k v, 0 ≤ p.2 := by
  intro p hp
  unfold addKey at hp
  rcases List.mem_map.mp hp with ⟨q, hq, rfl⟩
  by_cases h : q.1 = k
  · simp only [h, if_pos rfl]
    exact add_nonneg (hd q hq) hv
  · simp only [if_neg h]
    exact hd q hq

theorem create_goodKeys (m : String) : goodKeys (_create_empty_result m) :=
  ⟨rfl, rfl⟩

theorem create_sumsNonneg (m : String) : sumsNonneg (_create_empty_result m) := by
  show ∀ p ∈ initSums, 0 ≤ p.2
  decide

theorem update_goodKeys (cur cur2 : ModelResult) (a b : String)
    (h : _update_point_data cur a b = .ok cur2) (hg : goodKeys cur) : goodKeys cur2 := by
  unfold _update_point_data at h
  cases hpt : _extract_point_index a with
  | none =>
    rw [hpt] at h
    injection h with h
    subst h
    exact hg
  | some i =>
    rw [hpt] at h
    dsimp only at h
    cases hd : parse_duration (some b) with
    | error e =>
      rw [hd, error_bind] at h
      cases h
    | ok d =>
      rw [hd, ok_bind] at h
      injection h with h
      subst h
      exact ⟨by rw [bumpKey_keys]; exact hg.1, by rw [addKey_keys]; exact hg.2⟩

theorem update_sumsNonneg (cur cur2 : ModelResult) (a b : String)
    (hb : ∀ v : Int, parse_duration (some b) = .ok v → 0 ≤ v)
    (h : _update_point_data cur a b = .ok cur2) (hg : sumsNonneg cur) : sumsNonneg cur2 := by
  unfold _update_point_data at h
  cases hpt : _extract_point_index a with
  | none =>
    rw [hpt] at h
    injection h with h
    subst h
    exact hg
  | some i =>
    rw [hpt] at h
    dsimp only at h
    cases hd : parse_duration (some b) with
    | error e =>
      rw [hd, error_bind] at h
      cases h
    | ok d =>
      rw [hd, ok_bind] at h
      injection h with h
      subst h
      exact addKey_nonneg cur.sums i d (hb d hd) hg

theorem flushModel_inv (P : ModelResult → Prop) (s : ScanState)
    (hs : scanInv P s) : scanInv P (flushModel s) := by
  obtain ⟨pd, res, cur⟩ := s
  cases cur with
  | none => exact hs
  | some c =>
    refine ⟨?_, ?_⟩
    · intro r hr
      rcases List.mem_append.mp hr with h1 | h1
      · exact hs.1 r h1
      · rcases List.mem_singleton.mp h1 with rfl
        exact hs.2 _ rfl
    · intro c2 hc2
      cases hc2

theorem scanRowUpd_inv (P : ModelResult → Prop) (nc dc : Nat) (t : List String)
    (hupd : ∀ cur cur2, _update_point_data cur (t.getD (nc - 1) "") (t.getD (dc - 1) "")
      = .ok cur2 → P cur → P cur2)
    (st2 st3 : ScanState) (h : scanRowUpd nc dc st2 t = .ok st3)
    (hinv : scanInv P st2) : scanInv P st3 := by
  obtain ⟨pd, res, cur⟩ := st2
  unfold scanRowUpd at h
  cases cur with
  | none =>
    dsimp only at h
    injection h with h
    subst h
    split
    · exact flushModel_inv P _ hinv
    · exact hinv
  | some c =>
    dsimp only at h
    cases hu : _update_point_data c (t.getD (nc - 1) "") (t.getD (dc - 1) "") with
    | error e =>
      rw [hu, error_bind] at h
      cases h
    | ok c2 =>
      rw [hu, ok_bind] at h
      injection h with h
      subst h
      have hinv2 : scanInv P ⟨pd, res, some c2⟩ := by
        refine ⟨hinv.1, ?_⟩
        intro c' hc'
        injection hc' with hc'
        subst hc'
        exact hupd c c2 hu (hinv.2 c rfl)
      split
      · exact flushModel_inv P _ hinv2
      · exact hinv2

theorem scanRow_inv (P : ModelResult → Prop) (nc dc : Nat) (t : List String)
    (hupd : ∀ cur cur2, _update_point_data cur (t.getD (nc - 1) "") (t.getD (dc - 1) "")
      = .ok cur2 → P cur → P cur2)
    (hnew : ∀ m, P (_create_empty_result m))
    (st st' : ScanState) (h : scanRow nc dc st t = .ok st')
    (hinv : scanInv P st) : scanInv P st' := by
  unfold scanRow at h
  set st1 := (match _extract_period t with
    | some p => { st with period_date := p }
    | none => st) with hst1
  have hinv1 : scanInv P st1 := by
    rw [hst1]
    cases _extract_period t with
    | none => exact hinv
    | some p => exact hinv
  unfold scanRowTail at h
  cases hm : _extract_model_name t with
  | none =>
    rw [hm] at h
    exact scanRowUpd_inv P nc dc t hupd st1 st' h hinv1
  | some m =>
    rw [hm] at h
    dsimp only at h
    by_cases hne : m = ""
    · rw [if_neg (by simp [hne])] at h
      exact scanRowUpd_inv P nc dc t hupd st1 st' h hinv1
    · rw [if_pos hne] at h
      refine scanRowUpd_inv P nc dc t hupd _ st' h ?_
      refine ⟨(flushModel_inv P st1 hinv1).1, ?_⟩
      intro c hc
      injection hc with hc
      subst hc
      exact hnew m

theorem foldl_scan_inv (P : ModelResult → Prop) (nc dc : Nat)
    (hnew : ∀ m, P (_create_empty_result m)) :
    ∀ rows : List (List String),
      (∀ t ∈ rows, ∀ cur cur2,
        _update_point_data cur (t.getD (nc - 1) "") (t.getD (dc - 1) "") = .ok cur2 →
          P cur → P cur2) →
      ∀ st st', rows.foldlM (scanRow nc dc) st = .ok st' → scanInv P st →
        scanInv P st' := by
  intro rows
  induction rows with
  | nil =>
    intro _ st st' h hinv
    rw [List.foldlM_nil] at h
    injection h with h
    subst h
    exact hinv
  | cons t ts ih =>
    intro hupd st st' h hinv
    rw [List.foldlM_cons] at h
    cases hs : scanRow nc dc st t with
    | error e =>
      rw [hs, error_bind] at h
      cases h
    | ok st1 =>
      rw [hs, ok_bind] at h
      refine ih (fun t' ht' => hupd t' (List.mem_cons_of_mem _ ht')) st1 st' h ?_
      exact scanRow_inv P nc dc t (hupd t (List.mem_cons_self _ _)) hnew st st1 hs hinv

/-- Claim C6, amended: at every point of the row scan (final state of any
row prefix) both tables of the open section and of every flushed section
hold exactly the keys 1..8; counts are natural numbers by construction
(started at 0 and only incremented); duration sums are non-negative
provided every duration cell of the input parses to a non-negative
duration (the unconditional claim is false: a negative duration text
such as "-1:00:00" drives a sum negative, see the counterexample). -/
theorem claim_C6_table_invariants (nc dc : Nat) (rows : List (List String))
    (st : ScanState)
    (hfold : rows.foldlM (scanRow nc dc) ⟨"", [], none⟩ = .ok st) :
    ((∀ r ∈ st.results, goodKeys r) ∧ (∀ c, st.current = some c → goodKeys c)) ∧
    (durNonneg dc rows →
      (∀ r ∈ st.results, sumsNonneg r) ∧ (∀ c, st.current = some c → sumsNonneg c)) := by
  have hinit : ∀ P : ModelResult → Prop, scanInv P ⟨"", [], none⟩ := by
    intro P
    exact ⟨fun r hr => absurd hr (List.not_mem_nil r), fun c hc => by cases hc⟩
  constructor
  · exact foldl_scan_inv goodKeys nc dc create_goodKeys rows
      (fun t _ cur cur2 hu hg => update_goodKeys cur cur2 _ _ hu hg)
      _ st hfold (hinit goodKeys)
  · intro hdur
    exact foldl_scan_inv sumsNonneg nc dc create_sumsNonneg rows
      (fun t ht cur cur2 hu hg =>
        update_sumsNonneg cur cur2 _ _ (fun v hv => hdur t ht v hv) hu hg)
      _ st hfold (hinit sumsNonneg)

theorem claim_C6_table_invariants_witness : goodKeys (_create_empty_result "X") :=
  (claim_C6_table_invariants 3 10 [["Модель: X"]]
    ⟨"", [], some (_create_empty_result "X")⟩ (by decide)).1.2 _ rfl

/-- Claim C6 is false as stated for the duration sums: the duration cell
`"-1:00:00"` parses to minus one hour, so the first checkpoint's sum of
the produced section is negative. -/
theorem claim_C6_counterexample :
    scanRows 3 10 [["Модель: X"], ["", "", "Точка 1", "", "", "", "", "", "", "-1:00:00"]] =
      .ok [{ name := "", group := "X", total_points := none,
             counts := [(1, 1), (2, 0), (3, 0), (4, 0), (5, 0), (6, 0), (7, 0), (8, 0)],
             sums := [(1, -3600), (2, 0), (3, 0), (4, 0), (5, 0), (6, 0), (7, 0), (8, 0)] }] ∧
    ¬ sumsNonneg { name := "", group := "X", total_points := none,
                   counts := [(1, 1), (2, 0), (3, 0), (4, 0), (5, 0), (6, 0), (7, 0), (8, 0)],
                   sums := [(1, -3600), (2, 0), (3, 0), (4, 0), (5, 0), (6, 0), (7, 0),
                     (8, 0)] } := by
  constructor
  · decide
  · intro hs
    have h1 := hs (1, -3600) (by decide)
    omega

/-! ### Claim C8: the group-column merge loop -/

/-- Unfolding equation of `mergeGo` on the empty row list (the final
`if current_group and out_ws.max_row - start_row + 1 > 1` of the loop). -/
theorem mergeGo_nil (cur : String) (start r : Nat) (acc : List (Nat × Nat)) :
    mergeGo cur start r [] acc =
      if cur ≠ "" ∧ (r - 1) - start + 1 > 1 then acc ++ [(start, r - 1)] else acc := rfl

/-- Unfolding equation of `mergeGo` on one more data row (one iteration
of the `for r in range(3, out_ws.max_row + 1)` loop). -/
theorem mergeGo_cons (cur v : String) (start r : Nat) (tl : List String)
    (acc : List (Nat × Nat)) :
    mergeGo cur start r (v :: tl) acc =
      if v ≠ cur then
        mergeGo v r (r + 1) tl
          (if cur ≠ "" ∧ r - start > 1 then acc ++ [(start, r - 1)] else acc)
      else mergeGo cur start (r + 1) tl acc := rfl

/-- With at least one data row, the merge loop starts at row 3 with the
first row's group as `current_group` and `start_row = 2`. -/
theorem merge_runs_cons (g : String) (rest : List String) :
    merge_runs (g :: rest) = mergeGo g 2 3 rest [] := rfl

/-- Ranges already merged are never un-merged: the accumulator is
contained in the output of `mergeGo`. -/
theorem mergeGo_acc_mem (rest : List String) :
    ∀ (cur : String) (start r : Nat) (acc : List (Nat × Nat)) (p : Nat × Nat),
      p ∈ acc → p ∈ mergeGo cur start r rest acc := by
  induction rest with
  | nil =>
    intro cur start r acc p hp
    rw [mergeGo_nil]
    by_cases h : cur ≠ "" ∧ (r - 1) - start + 1 > 1
    · rw [if_pos h]; exact List.mem_append_left _ hp
    · rw [if_neg h]; exact hp
  | cons v tl ih =>
    intro cur start r acc p hp
    rw [mergeGo_cons]
    by_cases hvc : v ≠ cur
    · rw [if_pos hvc]
      apply ih
      by_cases h2 : cur ≠ "" ∧ r - start > 1
      · rw [if_pos h2]; exact List.mem_append_left _ hp
      · rw [if_neg h2]; exact hp
    · rw [if_neg hvc]; exact ih _ _ _ _ _ hp

/-- Rows repeating the current group value are absorbed into the open
run: the loop just advances `r`. -/
theorem mergeGo_replicate (v : String) (tl2 : List String) (acc : List (Nat × Nat)) :
    ∀ (k start r : Nat),
      mergeGo v start r (List.replicate k v ++ tl2) acc =
        mergeGo v start (r + k) tl2 acc := by
  intro k
  induction k with
  | zero => intro start r; rfl
  | succ m ih =>
    intro start r
    rw [List.replicate_succ, List.cons_append, mergeGo_cons,
      if_neg (by simp : ¬ v ≠ v), ih]
    have e : r + 1 + m = r + (m + 1) := by omega
    rw [e]

/-- When the open run has non-empty value, spans at least two rows
(rows `start .. r - 1`) and the next row (if any) leaves it, the range
`(start, r - 1)` is merged. -/
theorem mergeGo_emit (v : String) (hv : v ≠ "") (start r : Nat) (hlen : start + 1 < r)
    (post : List String) (hpost : post.head? ≠ some v) (acc : List (Nat × Nat)) :
    (start, r - 1) ∈ mergeGo v start r post acc := by
  cases post with
  | nil =>
    rw [mergeGo_nil, if_pos ⟨hv, by omega⟩]
    exact List.mem_append_right _ (List.mem_singleton.mpr rfl)
  | cons w tl =>
    have hw : w ≠ v := by
      intro h
      exact hpost (by rw [List.head?_cons, h])
    rw [mergeGo_cons, if_pos hw, if_pos ⟨hv, by omega⟩]
    exact mergeGo_acc_mem tl w r (r + 1) _ _
      (List.mem_append_right _ (List.mem_singleton.mpr rfl))

/-- The last element of a non-empty list, via `getLastD` of its tail. -/
theorem getLast_cons_eq_getLastD {α : Type} (l : List α) :
    ∀ a : α, (a :: l).getLast? = some (l.getLastD a) := by
  induction l with
  | nil => intro a; rfl
  | cons b tl ih =>
    intro a
    rw [List.getLast?_cons_cons, ih b, List.getLastD_cons]

/-- After the loop has consumed a prefix `pre` of the remaining rows,
`current_group` is the last value of `pre` (or the initial `cur` when
`pre` is empty), the row counter has advanced by `pre.length`, and the
scan continues on the suffix with some start row and accumulator. -/
theorem mergeGo_reach (pre : List String) :
    ∀ (cur : String) (start r : Nat) (acc : List (Nat × Nat)) (suffix : List String),
      ∃ start2 acc2,
        mergeGo cur start r (pre ++ suffix) acc =
          mergeGo (pre.getLastD cur) start2 (r + pre.length) suffix acc2 := by
  induction pre with
  | nil =>
    intro cur start r acc suffix
    exact ⟨start, acc, by simp⟩
  | cons p pre2 ih =>
    intro cur start r acc suffix
    by_cases hpc : p ≠ cur
    · obtain ⟨s2, a2, h⟩ := ih p r (r + 1)
        (if cur ≠ "" ∧ r - start > 1 then acc ++ [(start, r - 1)] else acc) suffix
      refine ⟨s2, a2, ?_⟩
      rw [List.cons_append, mergeGo_cons, if_pos hpc, List.getLastD_cons]
      have e : r + (p :: pre2).length = r + 1 + pre2.length := by
        simp only [List.length_cons]; omega
      rw [e]
      exact h
    · have hpc2 : p = cur := not_not.mp hpc
      subst hpc2
      obtain ⟨s2, a2, h⟩ := ih p start (r + 1) acc suffix
      refine ⟨s2, a2, ?_⟩
      rw [List.cons_append, mergeGo_cons, if_neg hpc, List.getLastD_cons]
      have e : r + (p :: pre2).length = r + 1 + pre2.length := by
        simp only [List.length_cons]; omega
      rw [e]
      exact h

/-- Every range `mergeGo` ever emits spans at least two rows: both
merge conditions require the run length to exceed 1. -/
theorem mergeGo_lt (rest : List String) :
    ∀ (cur : String) (start r : Nat) (acc : List (Nat × Nat)),
      (∀ q ∈ acc, q.1 < q.2) → ∀ p ∈ mergeGo cur start r rest acc, p.1 < p.2 := by
  induction rest with
  | nil =>
    intro cur start r acc hacc p hp
    rw [mergeGo_nil] at hp
    by_cases h : cur ≠ "" ∧ (r - 1) - start + 1 > 1
    · rw [if_pos h] at hp
      rcases List.mem_append.mp hp with h1 | h1
      · exact hacc p h1
      · obtain ⟨-, h2⟩ := h
        rw [List.mem_singleton.mp h1]
        show start < r - 1
        omega
    · rw [if_neg h] at hp
      exact hacc p hp
  | cons v tl ih =>
    intro cur start r acc hacc p hp
    rw [mergeGo_cons] at hp
    by_cases hvc : v ≠ cur
    · rw [if_pos hvc] at hp
      refine ih v r (r + 1) _ ?_ p hp
      intro q hq
      by_cases h2 : cur ≠ "" ∧ r - start > 1
      · rw [if_pos h2] at hq
        rcases List.mem_append.mp hq with h1 | h1
        · exact hacc q h1
        · obtain ⟨-, h3⟩ := h2
          rw [List.mem_singleton.mp h1]
          show start < r - 1
          omega
      · rw [if_neg h2] at hq
        exact hacc q hq
    · rw [if_neg hvc] at hp
      exact ih cur start (r + 1) acc hacc p hp

/-- Claim C8, amended: a maximal run of `n ≥ 2` consecutive data rows
sharing the same non-empty group value `v` (the rows before and after
the run, if any, carry a different value) is merged into the single
spanning range from its first to its last row (data row `i` sits in
sheet row `i + 2`), and no merged range ever spans a single row.  The
restriction to non-empty `v` is necessary: Python's truthiness test
`if current_group` skips runs of the empty group value, see the
counterexample. -/
theorem claim_C8_group_merge (pre post : List String) (v : String) (n : Nat)
    (hv : v ≠ "") (hn : 2 ≤ n)
    (hpre : pre.getLast? ≠ some v) (hpost : post.head? ≠ some v) :
    (pre.length + 2, pre.length + n + 1) ∈
        merge_runs (pre ++ (List.replicate n v ++ post)) ∧
      ∀ (groups : List String), ∀ p ∈ merge_runs groups, p.1 < p.2 := by
  obtain ⟨m, rfl⟩ : ∃ m, n = m + 2 := ⟨n - 2, by omega⟩
  constructor
  · cases pre with
    | nil =>
      have hrep : List.replicate (m + 2) v = v :: List.replicate (m + 1) v := rfl
      simp only [List.nil_append, List.length_nil, Nat.zero_add]
      rw [hrep, List.cons_append, merge_runs_cons, mergeGo_replicate]
      have h := mergeGo_emit v hv 2 (3 + (m + 1)) (by omega) post hpost []
      have e : 3 + (m + 1) - 1 = m + 2 + 1 := by omega
      rw [e] at h
      exact h
    | cons p0 pre2 =>
      rw [List.cons_append, merge_runs_cons]
      obtain ⟨s2, a2, hreach⟩ :=
        mergeGo_reach pre2 p0 2 3 [] (List.replicate (m + 2) v ++ post)
      rw [hreach]
      have hcur : pre2.getLastD p0 ≠ v := by
        intro h
        apply hpre
        rw [getLast_cons_eq_getLastD, h]
      have hrep : List.replicate (m + 2) v = v :: List.replicate (m + 1) v := rfl
      rw [hrep, List.cons_append, mergeGo_cons,
        if_pos (show v ≠ pre2.getLastD p0 from fun h => hcur h.symm),
        mergeGo_replicate]
      have h := mergeGo_emit v hv (3 + pre2.length) (3 + pre2.length + 1 + (m + 1))
        (by omega) post hpost
        (if pre2.getLastD p0 ≠ "" ∧ 3 + pre2.length - s2 > 1 then
          a2 ++ [(s2, 3 + pre2.length - 1)] else a2)
      have e1 : (p0 :: pre2).length + 2 = 3 + pre2.length := by
        simp only [List.length_cons]; omega
      have e2 : (p0 :: pre2).length + (m + 2) + 1 = 3 + pre2.length + 1 + (m + 1) - 1 := by
        simp only [List.length_cons]; omega
      rw [e1, e2]
      exact h
  · intro groups p hp
    cases groups with
    | nil => simp [merge_runs] at hp
    | cons g rest =>
      rw [merge_runs_cons] at hp
      refine mergeGo_lt rest g 2 3 [] ?_ p hp
      intro q hq
      cases hq

/-- Claim C8 is false as stated for the empty group value: two
consecutive data rows whose group cells both hold `""` form a maximal
run of length 2 with equal values, yet the merge loop merges nothing
(`if current_group:` is false for the empty string). -/
theorem claim_C8_counterexample :
    (["", ""] : List String) = List.replicate 2 "" ∧ merge_runs ["", ""] = [] := by
  constructor
  · rfl
  · decide

theorem claim_C8_group_merge_witness :
    ("A" : String) ≠ "" ∧ 2 ≤ 2 ∧
      ([] : List String).getLast? ≠ some "A" ∧
      (["B"] : List String).head? ≠ some "A" ∧
      (2, 3) ∈ merge_runs ["A", "A", "B"] :=
  ⟨by decide, by decide, by decide, by decide,
    (claim_C8_group_merge [] ["B"] "A" 2 (by decide) (by decide) (by decide)
      (by decide)).1⟩

end Tochki
